import Mathlib

/-!
# QuestFlow quest-optimization engine: a shallow embedding

This file embeds the QuestFlow optimization core (reward tables, EV
calculator, greedy plan optimizer, plan mutator/recalculator) as executable
Lean definitions over exact rationals, and proves properties of the embedded
code. JavaScript numbers are modelled by `ℚ`; `Math.ceil`, `Math.round`,
`Math.min`/`Math.max` by their exact counterparts; the JavaScript `Infinity`
produced by the quest-progress estimator is modelled by `Option ℚ` with
`none` standing for `Infinity`; `Map`/`Set` by insertion-ordered association
lists; and the ambient UUID generator and clock by explicit parameters
(`gen : Nat → String`, `now : ℚ`).
-/

namespace QuestFlow

/-- Model of JavaScript `Math.ceil` on rationals. -/
def jsCeil (x : ℚ) : ℚ := (⌈x⌉ : ℚ)

/-- Model of JavaScript `Math.round` on rationals (round half towards plus
infinity, i.e. `floor (x + 1/2)`). -/
def jsRound (x : ℚ) : ℚ := (⌊x + 1/2⌋ : ℚ)

/-- Quest types, from `quest.ts` (`enum QuestType`). -/
inductive QuestType where
  | win
  | cast
  | play_colors
deriving DecidableEq, Repr

/-- Queue types, from `queue.ts` (`enum QueueType`), in declaration order. -/
inductive QueueType where
  | standard_bo1
  | standard_bo3
  | historic_bo1
  | historic_bo3
  | quick_draft
  | premier_draft
  | traditional_draft
  | midweek_magic
  | alchemy_bo1
  | explorer_bo1
deriving DecidableEq, Repr

/-- String identifier of a queue type (the enum member values of
`QueueType` in `queue.ts`). -/
def QueueType.ident : QueueType → String
  | .standard_bo1 => "standard_bo1"
  | .standard_bo3 => "standard_bo3"
  | .historic_bo1 => "historic_bo1"
  | .historic_bo3 => "historic_bo3"
  | .quick_draft => "quick_draft"
  | .premier_draft => "premier_draft"
  | .traditional_draft => "traditional_draft"
  | .midweek_magic => "midweek_magic"
  | .alchemy_bo1 => "alchemy_bo1"
  | .explorer_bo1 => "explorer_bo1"

/-- Per-quest-type progress multipliers of a queue (`questMultiplier` in
`queue.ts`). -/
structure QuestMultiplier where
  win : ℚ
  cast : ℚ
  play_colors : ℚ
deriving DecidableEq, Repr

/-- Lookup of a quest multiplier by quest type
(`rewards.questMultiplier[quest.type]`). -/
def QuestMultiplier.get (m : QuestMultiplier) : QuestType → ℚ
  | .win => m.win
  | .cast => m.cast
  | .play_colors => m.play_colors

/-- Reward profile of one queue (`interface QueueRewards` in `queue.ts`).
`gemRewards` and `packRewards` are optional in the source. -/
structure QueueRewards where
  entryFee : ℚ
  winRewards : List ℚ
  gemRewards : Option (List ℚ)
  packRewards : Option (List ℚ)
  averageGameLength : ℚ
  questMultiplier : QuestMultiplier
deriving DecidableEq, Repr

/-- The static reward table `QUEUE_REWARDS` of `queue.ts`. -/
def QUEUE_REWARDS : QueueType → QueueRewards
  | .standard_bo1 =>
    { entryFee := 0
      winRewards := [0, 25, 50, 100, 150, 200, 250]
      gemRewards := none
      packRewards := none
      averageGameLength := 8
      questMultiplier := ⟨1, 1, 1⟩ }
  | .standard_bo3 =>
    { entryFee := 0
      winRewards := [0, 100, 200, 300]
      gemRewards := none
      packRewards := none
      averageGameLength := 20
      questMultiplier := ⟨2, 5/2, 5/2⟩ }
  | .historic_bo1 =>
    { entryFee := 0
      winRewards := [0, 25, 50, 100, 150, 200, 250]
      gemRewards := none
      packRewards := none
      averageGameLength := 7
      questMultiplier := ⟨1, 1, 1⟩ }
  | .historic_bo3 =>
    { entryFee := 0
      winRewards := [0, 100, 200, 300]
      gemRewards := none
      packRewards := none
      averageGameLength := 18
      questMultiplier := ⟨2, 5/2, 5/2⟩ }
  | .quick_draft =>
    { entryFee := 5000
      winRewards := [50, 100, 200, 300, 450, 650, 950, 1200]
      gemRewards := some [0, 50, 100, 200, 300, 450, 650, 950]
      packRewards := some [1, 1, 2, 2, 3, 4, 5, 6]
      averageGameLength := 12
      questMultiplier := ⟨1, 4/5, 6/5⟩ }
  | .premier_draft =>
    { entryFee := 10000
      winRewards := [0, 1000, 1500, 1700, 1900, 2100, 2200, 2500]
      gemRewards := some [50, 250, 400, 600, 800, 1000, 1200, 1600]
      packRewards := some [1, 1, 2, 2, 3, 4, 5, 6]
      averageGameLength := 15
      questMultiplier := ⟨1, 4/5, 6/5⟩ }
  | .traditional_draft =>
    { entryFee := 10000
      winRewards := [0, 3000, 6000]
      gemRewards := some [0, 1000, 3000]
      packRewards := some [1, 4, 6]
      averageGameLength := 35
      questMultiplier := ⟨2, 5/2, 5/2⟩ }
  | .midweek_magic =>
    { entryFee := 0
      winRewards := [0, 250, 400, 500]
      gemRewards := none
      packRewards := none
      averageGameLength := 10
      questMultiplier := ⟨1, 3/2, 3/2⟩ }
  | .alchemy_bo1 =>
    { entryFee := 0
      winRewards := [0, 25, 50, 100, 150, 200, 250]
      gemRewards := none
      packRewards := none
      averageGameLength := 9
      questMultiplier := ⟨1, 6/5, 1⟩ }
  | .explorer_bo1 =>
    { entryFee := 0
      winRewards := [0, 25, 50, 100, 150, 200, 250]
      gemRewards := none
      packRewards := none
      averageGameLength := 8
      questMultiplier := ⟨1, 1, 1⟩ }

/-- Lookup with fallback (`getQueueRewardsWithFallback` in `queue.ts`); in
the source the record lookup over the closed enum always succeeds, so the
fallback never fires and the lookup is total. -/
def getQueueRewardsWithFallback (queueType : QueueType) : QueueRewards :=
  QUEUE_REWARDS queueType

/-- All queue types in enum declaration order (`getAllQueueTypes` in
`queue.ts`, i.e. `Object.values(QueueType)`). -/
def getAllQueueTypes : List QueueType :=
  [.standard_bo1, .standard_bo3, .historic_bo1, .historic_bo3, .quick_draft,
   .premier_draft, .traditional_draft, .midweek_magic, .alchemy_bo1,
   .explorer_bo1]

/-- The win-streak expectation of a reward array, from `ev-calculator.ts`
(`calculateExpectedReward`): degenerate branches for win rate 0 and 1, and
otherwise one probability-weighted term per index, where index 0 gets
`1 - winRate`, the last index gets `winRate ^ wins`, and every other index
gets `winRate ^ wins * (1 - winRate)`. -/
def calculateExpectedReward (rewards : List ℚ) (winRate : ℚ) : ℚ :=
  if rewards.length = 0 then 0
  else if winRate = 0 then rewards.getD 0 0
  else if winRate = 1 then rewards.getD (rewards.length - 1) 0
  else
    ∑ wins in Finset.range rewards.length,
      (if wins = 0 then 1 - winRate
       else if wins = rewards.length - 1 then winRate ^ wins
       else winRate ^ wins * (1 - winRate)) * rewards.getD wins 0

/-- Result record of `calculateQueueEV` (`EVResult` in `ev-calculator.ts`). -/
structure EVResult where
  expectedValue : ℚ
  expectedGold : ℚ
  expectedGems : ℚ
  expectedPacks : ℚ
  entryCost : ℚ
  netValue : ℚ
  evPerMinute : ℚ
deriving DecidableEq, Repr

/-- The queue EV calculator (`calculateQueueEV` in `ev-calculator.ts`):
expected gold/gem/pack rewards via the win-streak model, converted to a gold
equivalent (1 gem = 5 gold, 1 pack = 1000 gold), net of entry fee, and
normalized per minute of average game length. -/
def calculateQueueEV (queueType : QueueType) (winRate : ℚ) : EVResult :=
  let rewards := getQueueRewardsWithFallback queueType
  let expectedGold := calculateExpectedReward rewards.winRewards winRate
  let expectedGems :=
    match rewards.gemRewards with
    | some g => calculateExpectedReward g winRate
    | none => 0
  let expectedPacks :=
    match rewards.packRewards with
    | some p => calculateExpectedReward p winRate
    | none => 0
  let goldEquivalent := expectedGold + expectedGems * 5 + expectedPacks * 1000
  let netValue := goldEquivalent - rewards.entryFee
  let evPerMinute := netValue / rewards.averageGameLength
  { expectedValue := goldEquivalent
    expectedGold := expectedGold
    expectedGems := expectedGems
    expectedPacks := expectedPacks
    entryCost := rewards.entryFee
    netValue := netValue
    evPerMinute := evPerMinute }

/-- The standalone expected-gold helper of `queue.ts`
(`calculateExpectedGoldReward`): loops over all indices but the last with
stopping probabilities, then adds the reaching-the-maximum term whenever the
array has more than one entry. -/
def calculateExpectedGoldReward (queueType : QueueType) (winRate : ℚ) : ℚ :=
  let rewards := getQueueRewardsWithFallback queueType
  let winRewards := rewards.winRewards
  if winRewards.length = 0 then 0
  else
    (∑ wins in Finset.range (winRewards.length - 1),
      (if wins = 0 then 1 - winRate
       else winRate ^ wins * (1 - winRate)) * winRewards.getD wins 0) +
    (if 1 < winRewards.length then
      winRate ^ (winRewards.length - 1) * winRewards.getD (winRewards.length - 1) 0
     else 0)

/-- A quest record, from the `Quest` type of `quest.ts` / the inline quest
schema of `plan-optimizer.ts`; dates are opaque rationals and colors are
plain strings, since the optimizer never inspects either. -/
structure Quest where
  id : String
  type : QuestType
  description : String
  remaining : ℚ
  expiresInDays : ℚ
  colors : Option (List String)
  createdAt : ℚ
  updatedAt : ℚ
deriving DecidableEq, Repr

/-- Result of `calculateQuestProgressRate` (`QuestProgressResult` in
`ev-calculator.ts`); `none` models the JavaScript `Infinity` results. -/
structure QuestProgressResult where
  progressPerGame : ℚ
  estimatedGamesToComplete : Option ℚ
  estimatedMinutesToComplete : Option ℚ
deriving DecidableEq, Repr

/-- Per-game quest progress for a quest/queue/win-rate combination
(`calculateQuestProgressRate` in `ev-calculator.ts`). -/
def calculateQuestProgressRate (quest : Quest) (queueType : QueueType)
    (winRate : ℚ) : QuestProgressResult :=
  let rewards := getQueueRewardsWithFallback queueType
  let multiplier := rewards.questMultiplier.get quest.type
  let baseProgressPerGame :=
    match quest.type with
    | .win => winRate * multiplier
    | .cast => 10 * multiplier
    | .play_colors => 1 * multiplier
  let progressPerGame := min baseProgressPerGame quest.remaining
  let estimatedGamesToComplete : Option ℚ :=
    if quest.remaining = 0 then some 0
    else if 0 < progressPerGame then some (jsCeil (quest.remaining / progressPerGame))
    else none
  let estimatedMinutesToComplete : Option ℚ :=
    if quest.remaining = 0 then some 0
    else
      match estimatedGamesToComplete with
      | none => none
      | some g => some (g * rewards.averageGameLength)
  { progressPerGame := progressPerGame
    estimatedGamesToComplete := estimatedGamesToComplete
    estimatedMinutesToComplete := estimatedMinutesToComplete }

/-- Result of `estimateQuestCompletion` in `ev-calculator.ts`. -/
structure CompletionEstimate where
  canComplete : Bool
  estimatedMinutes : Option ℚ
  estimatedGames : Option ℚ
  progressPerGame : ℚ
  timeRemaining : ℚ
deriving DecidableEq, Repr

/-- Completion-time estimator (`estimateQuestCompletion` in
`ev-calculator.ts`); a comparison against `Infinity` is false, and
`timeBudget - Infinity` clipped at zero is zero. -/
def estimateQuestCompletion (quest : Quest) (queueType : QueueType)
    (winRate : ℚ) (timeBudgetMinutes : ℚ) : CompletionEstimate :=
  let progressResult := calculateQuestProgressRate quest queueType winRate
  let canComplete :=
    match progressResult.estimatedMinutesToComplete with
    | none => false
    | some m => decide (m ≤ timeBudgetMinutes)
  let timeRemaining :=
    match progressResult.estimatedMinutesToComplete with
    | none => 0
    | some m => max 0 (timeBudgetMinutes - m)
  { canComplete := canComplete
    estimatedMinutes := progressResult.estimatedMinutesToComplete
    estimatedGames := progressResult.estimatedGamesToComplete
    progressPerGame := progressResult.progressPerGame
    timeRemaining := timeRemaining }

/-- User settings consumed by the optimizer (`UserSettings` in
`plan-optimizer.ts`). -/
structure UserSettings where
  defaultWinRate : ℚ
  preferredQueues : List QueueType
  minutesPerGame : ℚ
deriving DecidableEq, Repr

/-- Default user settings (`createDefaultSettings` in `plan-optimizer.ts`,
also the inline default inside `optimizePlan`). -/
def createDefaultSettings : UserSettings :=
  { defaultWinRate := 1/2
    preferredQueues := [.standard_bo1, .historic_bo1, .quick_draft]
    minutesPerGame := 8 }

/-- One quest-progress entry of a queue option or plan step
(`questProgress` entries in `plan-optimizer.ts`). -/
structure ProgressEntry where
  questId : String
  progressAmount : ℚ
  estimatedGamesToComplete : Option ℚ
deriving DecidableEq, Repr

/-- A candidate queue option of one greedy iteration (`interface
QueueOption` in `plan-optimizer.ts`). -/
structure QueueOption where
  queueType : QueueType
  ev : EVResult
  questCompletionBonus : ℚ
  questProgress : List ProgressEntry
  estimatedMinutes : ℚ
  canCompleteInBudget : Bool
  priority : ℚ
deriving DecidableEq, Repr

/-- A gold/gems/packs triple (`Rewards` in `queue.ts`). -/
structure Rewards where
  gold : ℚ
  gems : ℚ
  packs : ℚ
deriving DecidableEq, Repr

/-- One plan step (`PlanStep` in `queue.ts`); the recorded quest progress of
a step keeps only the quest id and amount, as in the source. -/
structure StepProgress where
  questId : String
  progressAmount : ℚ
deriving DecidableEq, Repr

/-- A plan step produced by the optimizer. -/
structure PlanStep where
  id : String
  queue : QueueType
  targetGames : ℚ
  estimatedMinutes : ℚ
  expectedRewards : Rewards
  questProgress : List StepProgress
  completed : Bool
deriving DecidableEq, Repr

/-- An optimized plan (`OptimizedPlan` in `plan.ts`). -/
structure OptimizedPlan where
  id : String
  steps : List PlanStep
  totalEstimatedMinutes : ℚ
  totalExpectedRewards : Rewards
  questsCompleted : List String
  timeBudget : ℚ
  winRate : ℚ
  createdAt : ℚ
  updatedAt : ℚ
deriving DecidableEq, Repr

/-- Result of an optimization call (`OptimizationResult` in
`plan-optimizer.ts`); optional fields that the source leaves absent are
`none`. -/
structure OptimizationResult where
  success : Bool
  plan : Option OptimizedPlan
  error : Option String
  warnings : Option (List String)
deriving DecidableEq, Repr

/-- JavaScript `Map.get(k)` followed by `|| 0`: the stored value if the key
is present (a stored `0` is falsy and also yields `0`), else `0`. -/
def mapGetD (m : List (String × ℚ)) (k : String) : ℚ :=
  match m.find? (fun p => p.1 = k) with
  | some p => p.2
  | none => 0

/-- JavaScript `Map.set(k, v)`: replace the binding in place if the key is
present, else append it, preserving insertion order. -/
def mapSet (m : List (String × ℚ)) (k : String) (v : ℚ) : List (String × ℚ) :=
  match m with
  | [] => [(k, v)]
  | p :: rest => if p.1 = k then (k, v) :: rest else p :: mapSet rest k v

/-- JavaScript `Set.add(k)`: append if absent. -/
def setAdd (s : List String) (k : String) : List String :=
  if s.contains k then s else s ++ [k]

/-- Accumulator of the per-quest evaluation loop inside
`evaluateQueueOption`: gathered progress entries, total quest bonus, and
urgency multiplier. -/
structure EvalAcc where
  entries : List ProgressEntry
  totalQuestBonus : ℚ
  urgencyMultiplier : ℚ

/-- Evaluate one queue for the current optimizer state
(`evaluateQueueOption` in `plan-optimizer.ts`): gather per-quest progress,
quest-completion bonuses (500 gold prorated by the progress ratio) and the
urgency multiplier (2 within one day of expiry, 3/2 within two), size the
step to `max 1 (min 3 ⌈remaining/(2·len)⌉)` games, and return `none` when
the sized step does not fit the remaining time. -/
def evaluateQueueOption (queueType : QueueType) (quests : List Quest)
    (questProgress : List (String × ℚ)) (completedQuests : List String)
    (remainingTime : ℚ) (winRate : ℚ) : Option QueueOption :=
  let rewards := getQueueRewardsWithFallback queueType
  let acc := quests.foldl
    (fun (acc : EvalAcc) quest =>
      if completedQuests.contains quest.id then acc
      else
        let remaining := mapGetD questProgress quest.id
        if remaining ≤ 0 then acc
        else
          let progressResult := calculateQuestProgressRate quest queueType winRate
          if 0 < progressResult.progressPerGame then
            let progressAmount := min progressResult.progressPerGame remaining
            let questCompletionValue : ℚ := 500
            let progressRatio := progressAmount / remaining
            let urgencyMultiplier :=
              if quest.expiresInDays ≤ 1 then max acc.urgencyMultiplier 2
              else if quest.expiresInDays ≤ 2 then max acc.urgencyMultiplier (3/2)
              else acc.urgencyMultiplier
            { entries := acc.entries ++
                [{ questId := quest.id
                   progressAmount := progressAmount
                   estimatedGamesToComplete := progressResult.estimatedGamesToComplete }]
              totalQuestBonus := acc.totalQuestBonus + questCompletionValue * progressRatio
              urgencyMultiplier := urgencyMultiplier }
          else acc)
    { entries := [], totalQuestBonus := 0, urgencyMultiplier := 1 }
  let queueEV := calculateQueueEV queueType winRate
  let estimatedGames := max 1 (min 3 (jsCeil (remainingTime / rewards.averageGameLength / 2)))
  let estimatedMinutes := estimatedGames * rewards.averageGameLength
  if remainingTime < estimatedMinutes then none
  else
    let totalEV := queueEV.netValue * estimatedGames + acc.totalQuestBonus
    let evPerMinute := totalEV / estimatedMinutes
    let priority := evPerMinute * acc.urgencyMultiplier
    some
      { queueType := queueType
        ev := queueEV
        questCompletionBonus := acc.totalQuestBonus / estimatedGames
        questProgress := acc.entries
        estimatedMinutes := estimatedMinutes
        canCompleteInBudget := decide (estimatedMinutes ≤ remainingTime)
        priority := priority }

/-- The accumulator step of `findBestQueueOption`: keep the incumbent
unless the candidate fits the budget and has strictly higher priority (the
initial best priority is minus infinity, which any rational exceeds). -/
def pickOption (best : Option QueueOption) (o : QueueOption) : Option QueueOption :=
  if o.canCompleteInBudget &&
      (match best with
       | none => true
       | some b => decide (b.priority < o.priority)) then some o
  else best

/-- The allowed queue list of one optimizer call: the caller's preferred
queues if nonempty, else all queues (computed identically in
`findBestQueueOption` and `canQuestBeCompletedInTime`). -/
def availableQueues (settings : UserSettings) : List QueueType :=
  if settings.preferredQueues.length ≠ 0 then settings.preferredQueues
  else getAllQueueTypes

/-- Select the best queue option for the current state
(`findBestQueueOption` in `plan-optimizer.ts`). -/
def findBestQueueOption (quests : List Quest)
    (questProgress : List (String × ℚ)) (completedQuests : List String)
    (remainingTime : ℚ) (winRate : ℚ) (settings : UserSettings) :
    Option QueueOption :=
  (availableQueues settings).foldl
    (fun best queueType =>
      match evaluateQueueOption queueType quests questProgress completedQuests
          remainingTime winRate with
      | none => best
      | some o => pickOption best o)
    none

/-- Materialize a queue option as a plan step (`createPlanStep` in
`plan-optimizer.ts`): recompute the games from the minutes, round the
per-game expected rewards times games, and cap each quest progress amount by
the quest's currently tracked remaining count. -/
def createPlanStep (stepId : String) (option : QueueOption)
    (questProgress : List (String × ℚ)) : PlanStep :=
  let rewards := getQueueRewardsWithFallback option.queueType
  let estimatedGames := jsCeil (option.estimatedMinutes / rewards.averageGameLength)
  { id := stepId
    queue := option.queueType
    targetGames := estimatedGames
    estimatedMinutes := option.estimatedMinutes
    expectedRewards :=
      { gold := jsRound (option.ev.expectedGold * estimatedGames)
        gems := jsRound (option.ev.expectedGems * estimatedGames)
        packs := jsRound (option.ev.expectedPacks * estimatedGames) }
    questProgress := option.questProgress.map
      (fun p =>
        { questId := p.questId
          progressAmount := min (p.progressAmount * estimatedGames)
            (mapGetD questProgress p.questId) })
    completed := false }

/-- Apply a chosen option's quest progress to the tracked state, as the
`forEach` at the end of each loop iteration of `generateOptimizedPlan`:
decrement each touched quest (never below zero) and mark it completed when
it reaches zero. -/
def applyOptionProgress (entries : List ProgressEntry)
    (questProgress : List (String × ℚ)) (completedQuests : List String) :
    List (String × ℚ) × List String :=
  entries.foldl
    (fun (s : List (String × ℚ) × List String) e =>
      let currentProgress := mapGetD s.1 e.questId
      let newProgress := max 0 (currentProgress - e.progressAmount)
      let qp := mapSet s.1 e.questId newProgress
      let cq := if newProgress = 0 then setAdd s.2 e.questId else s.2
      (qp, cq))
    (questProgress, completedQuests)

/-- The greedy accumulation loop of `generateOptimizedPlan`, with explicit
fuel (the source loop always breaks long before any reasonable fuel runs
out, since every step consumes at least seven minutes of a budget of at
most 180): as long as time remains and some quest is incomplete, pick the
best fitting option, emit it as a step, deduct its minutes and apply its
quest progress. Returns the emitted steps, the final tracked state, and the
next fresh-id counter. -/
def greedyLoop (gen : Nat → String) (quests : List Quest) (winRate : ℚ)
    (settings : UserSettings) :
    Nat → ℚ → List (String × ℚ) → List String → Nat →
    List PlanStep × List (String × ℚ) × List String × Nat
  | 0, _, questProgress, completedQuests, ctr =>
    ([], questProgress, completedQuests, ctr)
  | fuel + 1, remainingTime, questProgress, completedQuests, ctr =>
    if 0 < remainingTime ∧ completedQuests.length < questProgress.length then
      match findBestQueueOption quests questProgress completedQuests
          remainingTime winRate settings with
      | none => ([], questProgress, completedQuests, ctr)
      | some bestOption =>
        if remainingTime < bestOption.estimatedMinutes then
          ([], questProgress, completedQuests, ctr)
        else
          let step := createPlanStep (gen ctr) bestOption questProgress
          let state := applyOptionProgress bestOption.questProgress
            questProgress completedQuests
          let rest := greedyLoop gen quests winRate settings fuel
            (remainingTime - bestOption.estimatedMinutes) state.1 state.2 (ctr + 1)
          (step :: rest.1, rest.2.1, rest.2.2.1, rest.2.2.2)
    else ([], questProgress, completedQuests, ctr)

/-- Fuel given to the greedy loop; far more iterations than the source loop
can ever perform within the validated time budget (every step consumes at
least seven minutes of a budget of at most 180, so the loop breaks within
26 iterations). -/
def optimizerFuel : Nat := 1000

/-- The loop fuel is positive. -/
lemma optimizerFuel_pos : 0 < optimizerFuel := by norm_num [optimizerFuel]

attribute [irreducible] optimizerFuel

/-- Generate an optimized plan (`generateOptimizedPlan` in
`plan-optimizer.ts`): run the greedy loop from the full budget and the
quests' remaining counts, then aggregate totals over the emitted steps. -/
def generateOptimizedPlan (gen : Nat → String) (now : ℚ)
    (quests : List Quest) (timeBudget : ℚ) (winRate : ℚ)
    (settings : UserSettings) : OptimizedPlan :=
  let questProgress0 := quests.foldl (fun m q => mapSet m q.id q.remaining) []
  let res := greedyLoop gen quests winRate settings optimizerFuel
    timeBudget questProgress0 [] 0
  let steps := res.1
  let totalEstimatedMinutes := steps.foldl (fun s st => s + st.estimatedMinutes) 0
  let totalExpectedRewards := steps.foldl
    (fun (s : Rewards) st =>
      { gold := s.gold + st.expectedRewards.gold
        gems := s.gems + st.expectedRewards.gems
        packs := s.packs + st.expectedRewards.packs })
    { gold := 0, gems := 0, packs := 0 }
  { id := gen res.2.2.2
    steps := steps
    totalEstimatedMinutes := totalEstimatedMinutes
    totalExpectedRewards := totalExpectedRewards
    questsCompleted := res.2.2.1
    timeBudget := timeBudget
    winRate := winRate
    createdAt := now
    updatedAt := now }

/-- Feasibility pre-check for one quest (`canQuestBeCompletedInTime` in
`plan-optimizer.ts`): some allowed queue completes it inside the budget. -/
def canQuestBeCompletedInTime (quest : Quest) (timeBudget : ℚ)
    (winRate : ℚ) (preferredQueues : List QueueType) : Bool :=
  let queuesToCheck :=
    if preferredQueues.length ≠ 0 then preferredQueues else getAllQueueTypes
  queuesToCheck.any
    (fun queueType =>
      (estimateQuestCompletion quest queueType winRate timeBudget).canComplete)

/-- Advisory warnings of a successful optimization (`generateWarnings` in
`plan-optimizer.ts`). -/
def generateWarnings (allQuests : List Quest) (feasibleQuests : List Quest)
    (plan : OptimizedPlan) : List String :=
  let infeasibleQuests := allQuests.filter
    (fun quest => !(feasibleQuests.any (fun fq => fq.id = quest.id)) && 0 < quest.remaining)
  let w1 : List String :=
    if 0 < infeasibleQuests.length then
      let n := infeasibleQuests.length
      [s!"{n} quest(s) cannot be completed within time budget"]
    else []
  let expiringQuests := allQuests.filter
    (fun quest => quest.expiresInDays ≤ 1 && 0 < quest.remaining)
  let w2 : List String :=
    if 0 < expiringQuests.length then
      let n := expiringQuests.length
      [s!"{n} quest(s) expire within 24 hours"]
    else []
  let unusedTime := plan.timeBudget - plan.totalEstimatedMinutes
  let w3 : List String :=
    if 15 < unusedTime then
      [s!"{unusedTime} minutes of unused time - consider adding more quests or increasing targets"]
    else []
  w1 ++ w2 ++ w3

/-- Hexadecimal-digit test used by the UUID format check. -/
def isHexDigit (c : Char) : Bool :=
  c.isDigit || (Char.ofNat 97 ≤ c && c ≤ Char.ofNat 102) ||
    (Char.ofNat 65 ≤ c && c ≤ Char.ofNat 70)

/-- Model of the schema's UUID string-format check (`z.string().uuid()` in
the inline quest schema of `plan-optimizer.ts`, matching the 8-4-4-4-12
hyphenated hexadecimal shape checked by `isValidUUID` in `validation.ts`;
the version and variant nibble restrictions are not modelled, which is
harmless since no claim depends on them). -/
def isUuidString (s : String) : Bool :=
  let cs := s.toList
  cs.length = 36 &&
    (List.range 36).all (fun i =>
      if i = 8 || i = 13 || i = 18 || i = 23 then cs.getD i ' ' = '-'
      else isHexDigit (cs.getD i ' '))

/-- Validity of one quest record under the inline quest schema of
`OptimizationInputSchema`. -/
def questSchemaValid (q : Quest) : Bool :=
  isUuidString q.id && decide (0 ≤ q.remaining) && decide (0 ≤ q.expiresInDays)

/-- Validity of a settings record under the settings part of
`OptimizationInputSchema`. -/
def settingsSchemaValid (s : UserSettings) : Bool :=
  decide (3/10 ≤ s.defaultWinRate) && decide (s.defaultWinRate ≤ 4/5) &&
    decide (1 ≤ s.minutesPerGame) && decide (s.minutesPerGame ≤ 60)

/-- Success of `validateOptimizationInput` (the
`OptimizationInputSchema.parse` call in `plan-optimizer.ts`): every quest
validates, the time budget lies in [15, 180], the win rate in [3/10, 4/5],
and the settings, when present, validate. The Zod error message text of a
failed parse is abstracted by a fixed string, since no claim inspects it. -/
def validateOptimizationInput (quests : List Quest) (timeBudget : ℚ)
    (winRate : ℚ) (settings : Option UserSettings) : Bool :=
  quests.all questSchemaValid &&
    decide (15 ≤ timeBudget) && decide (timeBudget ≤ 180) &&
    decide (3/10 ≤ winRate) && decide (winRate ≤ 4/5) &&
    (match settings with
     | none => true
     | some s => settingsSchemaValid s)

/-- The main entry point (`optimizePlan` in `plan-optimizer.ts`): validate,
filter to active quests, fail fast when none is active or none is feasible,
otherwise generate a plan greedily and attach advisory warnings. -/
def optimizePlan (gen : Nat → String) (now : ℚ) (quests : List Quest)
    (timeBudget : ℚ) (winRate : ℚ) (settings : Option UserSettings) :
    OptimizationResult :=
  if !validateOptimizationInput quests timeBudget winRate settings then
    { success := false
      plan := none
      error := some "Invalid optimization input"
      warnings := none }
  else
    let userSettings := settings.getD createDefaultSettings
    let activeQuests := quests.filter (fun quest => 0 < quest.remaining)
    if activeQuests.length = 0 then
      { success := false
        plan := none
        error := some "No active quests to optimize"
        warnings := some ["All quests are already completed"] }
    else
      let feasibleQuests := activeQuests.filter
        (fun quest => canQuestBeCompletedInTime quest timeBudget winRate
          userSettings.preferredQueues)
      if feasibleQuests.length = 0 then
        { success := false
          plan := none
          error := some "Insufficient time to complete any quests"
          warnings := some ["Consider increasing time budget or adjusting win rate"] }
      else
        let plan := generateOptimizedPlan gen now feasibleQuests timeBudget
          winRate userSettings
        { success := true
          plan := some plan
          error := none
          warnings := some (generateWarnings activeQuests feasibleQuests plan) }

/-- Mark one step complete or incomplete (`updatePlanProgress` in
`plan-optimizer.ts`): map over the steps replacing the completed flag of
the step with the given id, and refresh the plan's `updatedAt`. -/
def updatePlanProgress (now : ℚ) (plan : OptimizedPlan) (stepId : String)
    (completed : Bool) : OptimizedPlan :=
  { plan with
    steps := plan.steps.map
      (fun step => if step.id = stepId then { step with completed := completed } else step)
    updatedAt := now }

/-- Recalculate a plan after step completions (`recalculatePlan` in
`plan-optimizer.ts`): with no remaining time return the plan unchanged with
the all-time-used warning, with less than 15 minutes return it with the
insufficient-remaining-time warning, else re-optimize the remaining time. -/
def recalculatePlan (gen : Nat → String) (now : ℚ)
    (originalPlan : OptimizedPlan) (updatedQuests : List Quest)
    (settings : Option UserSettings) : OptimizationResult :=
  let completedTime := (originalPlan.steps.filter (fun s => s.completed)).foldl
    (fun sum step => sum + step.estimatedMinutes) 0
  let remainingTime := originalPlan.timeBudget - completedTime
  if remainingTime ≤ 0 then
    { success := true
      plan := some { originalPlan with updatedAt := now }
      error := none
      warnings := some ["All allocated time has been used"] }
  else if remainingTime < 15 then
    { success := true
      plan := some { originalPlan with updatedAt := now }
      error := none
      warnings := some ["Insufficient remaining time for additional optimization"] }
  else
    optimizePlan gen now updatedQuests remainingTime originalPlan.winRate settings

/-! ## The spec-side win-streak expectation

For the refinement claim comparing the code's expected-gold computation with
the specification's win-streak formula, the formula below is written from
the spec's words: for `wins` in `[0, n-1]` the reward `R[wins]` weighted by
the stopping probability (`1-winRate` at zero wins, else
`winRate^wins * (1-winRate)`), plus `winRate^n * R[n]` for reaching the
maximum index. -/

/-- The spec's win-streak (geometric) expectation of a primary reward array. -/
def specExpectedPrimary (R : List ℚ) (winRate : ℚ) : ℚ :=
  (∑ wins in Finset.range (R.length - 1),
    R.getD wins 0 *
      (if wins = 0 then 1 - winRate else winRate ^ wins * (1 - winRate))) +
  winRate ^ (R.length - 1) * R.getD (R.length - 1) 0

/-! ## Closed form of the win-streak expectation -/

/-- Inside the stopping-probability sum the zero-wins case agrees with the
general term, since `p ^ 0 = 1`. -/
lemma streak_if_eq (p : ℚ) (f : ℕ → ℚ) (n : ℕ) :
    (∑ w in Finset.range n, (if w = 0 then 1 - p else p ^ w * (1 - p)) * f w) =
    ∑ w in Finset.range n, p ^ w * (1 - p) * f w := by
  refine Finset.sum_congr rfl fun w _ => ?_
  rcases Nat.eq_zero_or_pos w with hw | hw
  · subst hw; simp
  · rw [if_neg (Nat.pos_iff_ne_zero.mp hw)]

/-- Telescoped closed form of the win-streak expectation: stopping terms
plus the never-losing term equal the base reward plus power-weighted
successive reward differences. -/
lemma streak_sum_closed (f : ℕ → ℚ) (n : ℕ) (p : ℚ) :
    (∑ w in Finset.range n, p ^ w * (1 - p) * f w) + p ^ n * f n =
    f 0 + ∑ k in Finset.range n, p ^ (k + 1) * (f (k + 1) - f k) := by
  induction n with
  | zero => simp
  | succ n ih =>
    rw [Finset.sum_range_succ, Finset.sum_range_succ]
    linear_combination ih

/-- The code's `calculateExpectedReward`, on arrays of at least two entries,
equals the telescoped closed form for every win rate, the degenerate
branches included. -/
lemma calculateExpectedReward_eq_closed (R : List ℚ) (hR : 2 ≤ R.length)
    (p : ℚ) :
    calculateExpectedReward R p =
    R.getD 0 0 + ∑ k in Finset.range (R.length - 1),
      p ^ (k + 1) * (R.getD (k + 1) 0 - R.getD k 0) := by
  obtain ⟨n, hn⟩ : ∃ n, R.length = n + 1 + 1 := ⟨R.length - 2, by omega⟩
  unfold calculateExpectedReward
  rw [if_neg (by omega)]
  by_cases hp0 : p = 0
  · subst hp0
    rw [if_pos rfl]
    have : ∀ k ∈ Finset.range (R.length - 1),
        (0 : ℚ) ^ (k + 1) * (R.getD (k + 1) 0 - R.getD k 0) = 0 := by
      intro k _
      rw [zero_pow (Nat.succ_ne_zero k), zero_mul]
    rw [Finset.sum_congr rfl this]
    simp
  · rw [if_neg hp0]
    by_cases hp1 : p = 1
    · subst hp1
      rw [if_pos rfl]
      have : ∀ k ∈ Finset.range (R.length - 1),
          (1 : ℚ) ^ (k + 1) * (R.getD (k + 1) 0 - R.getD k 0) =
          R.getD (k + 1) 0 - R.getD k 0 := by
        intro k _
        rw [one_pow, one_mul]
      rw [Finset.sum_congr rfl this, Finset.sum_range_sub (fun k => R.getD k 0)]
      ring
    · rw [if_neg hp1, hn]
      have hsplit : ∀ w ∈ Finset.range (n + 1),
          (if w = 0 then 1 - p
           else if w = n + 1 + 1 - 1 then p ^ w
           else p ^ w * (1 - p)) * R.getD w 0 =
          (if w = 0 then 1 - p else p ^ w * (1 - p)) * R.getD w 0 := by
        intro w hw
        rw [Finset.mem_range] at hw
        rcases Nat.eq_zero_or_pos w with hw0 | hw0
        · subst hw0; simp
        · rw [if_neg (Nat.pos_iff_ne_zero.mp hw0),
            if_neg (Nat.pos_iff_ne_zero.mp hw0), if_neg (by omega)]
      rw [Finset.sum_range_succ, Finset.sum_congr rfl hsplit, if_neg (by omega),
        if_pos (by omega), streak_if_eq]
      have := streak_sum_closed (fun k => R.getD k 0) (n + 1) p
      simpa using this

/-- The spec's win-streak expectation also equals the closed form. -/
lemma specExpectedPrimary_eq_closed (R : List ℚ) (p : ℚ) :
    specExpectedPrimary R p =
    R.getD 0 0 + ∑ k in Finset.range (R.length - 1),
      p ^ (k + 1) * (R.getD (k + 1) 0 - R.getD k 0) := by
  unfold specExpectedPrimary
  have hcomm : ∀ w ∈ Finset.range (R.length - 1),
      R.getD w 0 * (if w = 0 then 1 - p else p ^ w * (1 - p)) =
      (if w = 0 then 1 - p else p ^ w * (1 - p)) * R.getD w 0 := by
    intro w _; ring
  rw [Finset.sum_congr rfl hcomm, streak_if_eq,
    streak_sum_closed (fun k => R.getD k 0) (R.length - 1) p]

/-- The queue.ts standalone expected-gold loop equals the closed form, on
arrays of at least two entries. -/
lemma goldLoop_eq_closed (R : List ℚ) (hR : 2 ≤ R.length) (p : ℚ) :
    ((∑ w in Finset.range (R.length - 1),
      (if w = 0 then 1 - p else p ^ w * (1 - p)) * R.getD w 0) +
     (if 1 < R.length then p ^ (R.length - 1) * R.getD (R.length - 1) 0 else 0)) =
    R.getD 0 0 + ∑ k in Finset.range (R.length - 1),
      p ^ (k + 1) * (R.getD (k + 1) 0 - R.getD k 0) := by
  rw [if_pos (by omega), streak_if_eq,
    streak_sum_closed (fun k => R.getD k 0) (R.length - 1) p]

/-- Component projections of `calculateQueueEV` in terms of the reward
table. -/
lemma calculateQueueEV_expectedGold (q : QueueType) (w : ℚ) :
    (calculateQueueEV q w).expectedGold =
    calculateExpectedReward (QUEUE_REWARDS q).winRewards w := rfl

/-- Every queue's primary reward array has at least two entries. -/
lemma winRewards_length (q : QueueType) :
    2 ≤ (QUEUE_REWARDS q).winRewards.length := by
  cases q <;> decide

/-- Every queue's primary reward array is nondecreasing. -/
lemma winRewards_chain (q : QueueType) :
    List.Chain' (· ≤ ·) (QUEUE_REWARDS q).winRewards := by
  cases q <;> norm_num [QUEUE_REWARDS, List.chain'_cons]

/-- The expectation of an optional reward array: the win-streak expectation
when the array is present, zero otherwise (the shape of the gem and pack
computations inside `calculateQueueEV`). -/
def optionalExpectedReward (o : Option (List ℚ)) (w : ℚ) : ℚ :=
  match o with
  | some g => calculateExpectedReward g w
  | none => 0

/-- Validity of an optional reward array: when present, at least two
nondecreasing entries. -/
def optionalRewardValid (o : Option (List ℚ)) : Prop :=
  match o with
  | none => True
  | some g => 2 ≤ g.length ∧ List.Chain' (· ≤ ·) g

/-- Every queue's gem reward array, when present, has at least two
nondecreasing entries. -/
lemma gemRewards_valid (q : QueueType) :
    optionalRewardValid (QUEUE_REWARDS q).gemRewards := by
  cases q <;>
    first
    | trivial
    | exact ⟨by norm_num, by norm_num [List.chain'_cons]⟩

/-- Every queue's pack reward array, when present, has at least two
nondecreasing entries. -/
lemma packRewards_valid (q : QueueType) :
    optionalRewardValid (QUEUE_REWARDS q).packRewards := by
  cases q <;>
    first
    | trivial
    | exact ⟨by norm_num, by norm_num [List.chain'_cons]⟩

/-- Every queue's average game length is positive. -/
lemma averageGameLength_pos (q : QueueType) :
    0 < (QUEUE_REWARDS q).averageGameLength := by
  cases q <;> decide

/-- Every queue's average game length is at least seven minutes. -/
lemma averageGameLength_ge_seven (q : QueueType) :
    7 ≤ (QUEUE_REWARDS q).averageGameLength := by
  cases q <;> decide

/-- The degenerate zero-win-rate branch of `calculateExpectedReward`. -/
lemma calculateExpectedReward_zero (R : List ℚ) (h : R.length ≠ 0) :
    calculateExpectedReward R 0 = R.getD 0 0 := by
  unfold calculateExpectedReward
  rw [if_neg h, if_pos rfl]

/-- The degenerate certain-win branch of `calculateExpectedReward`. -/
lemma calculateExpectedReward_one (R : List ℚ) (h : R.length ≠ 0) :
    calculateExpectedReward R 1 = R.getD (R.length - 1) 0 := by
  unfold calculateExpectedReward
  rw [if_neg h, if_neg (by norm_num), if_pos rfl]

/-- On a nondecreasing reward array of at least two entries, the win-streak
expectation is monotone in the win rate over the nonnegative reals. -/
lemma calculateExpectedReward_mono (R : List ℚ) (hR : 2 ≤ R.length)
    (hchain : List.Chain' (· ≤ ·) R) (p q : ℚ) (hp : 0 ≤ p) (hpq : p ≤ q) :
    calculateExpectedReward R p ≤ calculateExpectedReward R q := by
  rw [calculateExpectedReward_eq_closed R hR p,
    calculateExpectedReward_eq_closed R hR q]
  refine add_le_add_left (Finset.sum_le_sum fun k hk => ?_) _
  rw [Finset.mem_range] at hk
  have hd : R.getD k 0 ≤ R.getD (k + 1) 0 := by
    have hget := List.chain'_iff_get.mp hchain k (by omega)
    rw [List.getD_eq_getElem R 0 (by omega), List.getD_eq_getElem R 0 (by omega)]
    simpa using hget
  exact mul_le_mul_of_nonneg_right (pow_le_pow_left₀ hp hpq (k + 1))
    (sub_nonneg.mpr hd)

/-- Monotonicity of the optional-array expectation used for gems and
packs. -/
lemma optionalReward_mono (o : Option (List ℚ)) (hvalid : optionalRewardValid o)
    (p q : ℚ) (hp : 0 ≤ p) (hpq : p ≤ q) :
    optionalExpectedReward o p ≤ optionalExpectedReward o q := by
  cases o with
  | none => exact le_refl 0
  | some g => exact calculateExpectedReward_mono g hvalid.1 hvalid.2 p q hp hpq

/-- Projection of the gem component of `calculateQueueEV`. -/
lemma calculateQueueEV_expectedGems (q : QueueType) (w : ℚ) :
    (calculateQueueEV q w).expectedGems =
    optionalExpectedReward (QUEUE_REWARDS q).gemRewards w := rfl

/-- Projection of the pack component of `calculateQueueEV`. -/
lemma calculateQueueEV_expectedPacks (q : QueueType) (w : ℚ) :
    (calculateQueueEV q w).expectedPacks =
    optionalExpectedReward (QUEUE_REWARDS q).packRewards w := rfl

/-- Projection of the gold-equivalent total of `calculateQueueEV`. -/
lemma calculateQueueEV_expectedValue (q : QueueType) (w : ℚ) :
    (calculateQueueEV q w).expectedValue =
    (calculateQueueEV q w).expectedGold + (calculateQueueEV q w).expectedGems * 5 +
      (calculateQueueEV q w).expectedPacks * 1000 := rfl

/-- Projection of the net value of `calculateQueueEV`. -/
lemma calculateQueueEV_netValue (q : QueueType) (w : ℚ) :
    (calculateQueueEV q w).netValue =
    (calculateQueueEV q w).expectedValue - (QUEUE_REWARDS q).entryFee := rfl

/-- Projection of the per-minute value of `calculateQueueEV`. -/
lemma calculateQueueEV_evPerMinute (q : QueueType) (w : ℚ) :
    (calculateQueueEV q w).evPerMinute =
    (calculateQueueEV q w).netValue / (QUEUE_REWARDS q).averageGameLength := rfl

/-- C1: For every supported queue and every win rate, the expected primary
(gold) reward computed by `calculateQueueEV` equals the spec's win-streak
expectation over the queue's primary reward array; in particular win rate 0
yields the first entry and win rate 1 the last entry. -/
theorem C1_queueEV_primary_matches_win_streak (q : QueueType) (w : ℚ) :
    (calculateQueueEV q w).expectedGold =
      specExpectedPrimary (QUEUE_REWARDS q).winRewards w ∧
    (calculateQueueEV q 0).expectedGold = (QUEUE_REWARDS q).winRewards.getD 0 0 ∧
    (calculateQueueEV q 1).expectedGold =
      (QUEUE_REWARDS q).winRewards.getD ((QUEUE_REWARDS q).winRewards.length - 1) 0 := by
  have hlen := winRewards_length q
  refine ⟨?_, ?_, ?_⟩
  · rw [calculateQueueEV_expectedGold,
      calculateExpectedReward_eq_closed _ hlen w,
      specExpectedPrimary_eq_closed]
  · rw [calculateQueueEV_expectedGold,
      calculateExpectedReward_zero _ (by omega)]
  · rw [calculateQueueEV_expectedGold,
      calculateExpectedReward_one _ (by omega)]

/-- C10: The standalone expected-gold helper of queue.ts agrees with the
gold component of the EV calculator's `calculateQueueEV` on every queue
type and every win rate. -/
theorem C10_expectedGoldReward_refines_queueEV (q : QueueType) (w : ℚ) :
    calculateExpectedGoldReward q w = (calculateQueueEV q w).expectedGold := by
  have hlen := winRewards_length q
  rw [calculateQueueEV_expectedGold, calculateExpectedReward_eq_closed _ hlen w]
  unfold calculateExpectedGoldReward getQueueRewardsWithFallback
  rw [if_neg (by omega)]
  exact goldLoop_eq_closed (QUEUE_REWARDS q).winRewards hlen w

/-- C5: For every supported queue, every component of `calculateQueueEV` is
monotonically non-decreasing in the win rate over [0, 1]: the expected
gold, gems and packs, the gold-equivalent expected value, the net value,
and the EV per minute. -/
theorem C5_queueEV_monotone_in_winRate (q : QueueType) (w1 w2 : ℚ)
    (h0 : 0 ≤ w1) (h12 : w1 ≤ w2) (h21 : w2 ≤ 1) :
    (calculateQueueEV q w1).expectedGold ≤ (calculateQueueEV q w2).expectedGold ∧
    (calculateQueueEV q w1).expectedGems ≤ (calculateQueueEV q w2).expectedGems ∧
    (calculateQueueEV q w1).expectedPacks ≤ (calculateQueueEV q w2).expectedPacks ∧
    (calculateQueueEV q w1).expectedValue ≤ (calculateQueueEV q w2).expectedValue ∧
    (calculateQueueEV q w1).netValue ≤ (calculateQueueEV q w2).netValue ∧
    (calculateQueueEV q w1).evPerMinute ≤ (calculateQueueEV q w2).evPerMinute := by
  have hgold : (calculateQueueEV q w1).expectedGold ≤ (calculateQueueEV q w2).expectedGold := by
    rw [calculateQueueEV_expectedGold, calculateQueueEV_expectedGold]
    exact calculateExpectedReward_mono _ (winRewards_length q) (winRewards_chain q)
      w1 w2 h0 h12
  have hgems : (calculateQueueEV q w1).expectedGems ≤ (calculateQueueEV q w2).expectedGems := by
    rw [calculateQueueEV_expectedGems, calculateQueueEV_expectedGems]
    exact optionalReward_mono _ (gemRewards_valid q) w1 w2 h0 h12
  have hpacks : (calculateQueueEV q w1).expectedPacks ≤ (calculateQueueEV q w2).expectedPacks := by
    rw [calculateQueueEV_expectedPacks, calculateQueueEV_expectedPacks]
    exact optionalReward_mono _ (packRewards_valid q) w1 w2 h0 h12
  have hval : (calculateQueueEV q w1).expectedValue ≤ (calculateQueueEV q w2).expectedValue := by
    rw [calculateQueueEV_expectedValue, calculateQueueEV_expectedValue]
    linarith
  have hnet : (calculateQueueEV q w1).netValue ≤ (calculateQueueEV q w2).netValue := by
    rw [calculateQueueEV_netValue, calculateQueueEV_netValue]
    linarith
  have hev : (calculateQueueEV q w1).evPerMinute ≤ (calculateQueueEV q w2).evPerMinute := by
    rw [calculateQueueEV_evPerMinute, calculateQueueEV_evPerMinute]
    exact div_le_div_of_nonneg_right hnet (averageGameLength_pos q).le
  exact ⟨hgold, hgems, hpacks, hval, hnet, hev⟩

/-- Witness for C5 at the standard queue with win rates 0 and 1. -/
theorem C5_queueEV_monotone_in_winRate_witness :
    (calculateQueueEV .standard_bo1 0).expectedGold ≤
      (calculateQueueEV .standard_bo1 1).expectedGold ∧
    (calculateQueueEV .standard_bo1 0).expectedGems ≤
      (calculateQueueEV .standard_bo1 1).expectedGems ∧
    (calculateQueueEV .standard_bo1 0).expectedPacks ≤
      (calculateQueueEV .standard_bo1 1).expectedPacks ∧
    (calculateQueueEV .standard_bo1 0).expectedValue ≤
      (calculateQueueEV .standard_bo1 1).expectedValue ∧
    (calculateQueueEV .standard_bo1 0).netValue ≤
      (calculateQueueEV .standard_bo1 1).netValue ∧
    (calculateQueueEV .standard_bo1 0).evPerMinute ≤
      (calculateQueueEV .standard_bo1 1).evPerMinute :=
  C5_queueEV_monotone_in_winRate .standard_bo1 0 1 (by norm_num) (by norm_num)
    (by norm_num)

/-! ## Step-cost bounds for the greedy loop

Each emitted step costs `g * L` minutes where `L` is the queue's average
game length and `g = max 1 (min 3 ⌈rt/(2L)⌉)`; this cost is at least seven
minutes and either at least half the remaining time or at least 21 minutes.
A potential function over the remaining time then bounds the number of
steps any run of the loop can emit from a validated budget by ten. -/

/-- A rational is at most its ceiling. -/
lemma le_jsCeil (x : ℚ) : x ≤ jsCeil x := by
  unfold jsCeil
  exact_mod_cast Int.le_ceil x

/-- The ceiling of a positive rational is at least one. -/
lemma one_le_jsCeil {x : ℚ} (hx : 0 < x) : 1 ≤ jsCeil x := by
  unfold jsCeil
  exact_mod_cast Int.ceil_pos.mpr hx

/-- The per-step game count of `evaluateQueueOption` for remaining time
`rt` and average game length `L`. -/
def stepGames (rt L : ℚ) : ℚ := max 1 (min 3 (jsCeil (rt / L / 2)))

/-- The per-step minute cost of `evaluateQueueOption`. -/
def stepCost (rt L : ℚ) : ℚ := stepGames rt L * L

/-- The step cost is at least the average game length. -/
lemma stepCost_ge_L {rt L : ℚ} (hL : 0 < L) : L ≤ stepCost rt L := by
  unfold stepCost stepGames
  nlinarith [le_max_left 1 (min 3 (jsCeil (rt / L / 2)))]

/-- The step cost is at least half the remaining time or at least three
games' worth of at least 21 minutes. -/
lemma stepCost_half_or_21 {rt L : ℚ} (hrt : 0 < rt) (hL : 7 ≤ L) :
    rt ≤ 2 * stepCost rt L ∨ 21 ≤ stepCost rt L := by
  have hL0 : 0 < L := by linarith
  have hdd : rt / L / 2 = rt / (L * 2) := div_div rt L 2
  by_cases h3 : 3 ≤ jsCeil (rt / L / 2)
  · right
    have hmin : min 3 (jsCeil (rt / L / 2)) = 3 := min_eq_left h3
    have hmax : stepGames rt L = 3 := by
      unfold stepGames
      rw [hmin]
      exact max_eq_right (by norm_num)
    unfold stepCost
    rw [hmax]
    linarith
  · left
    push_neg at h3
    have hpos : 0 < rt / L / 2 := by positivity
    have h1 : 1 ≤ jsCeil (rt / L / 2) := one_le_jsCeil hpos
    have hmin : min 3 (jsCeil (rt / L / 2)) = jsCeil (rt / L / 2) :=
      min_eq_right (by linarith)
    have hmax : stepGames rt L = jsCeil (rt / L / 2) := by
      unfold stepGames
      rw [hmin]
      exact max_eq_right h1
    have hle : rt / (L * 2) ≤ jsCeil (rt / L / 2) := by
      rw [← hdd]
      exact le_jsCeil _
    have := (div_le_iff (by positivity : (0:ℚ) < L * 2)).mp hle
    unfold stepCost
    rw [hmax]
    nlinarith

/-- The step cost is at least seven minutes. -/
lemma stepCost_ge_seven {rt L : ℚ} (hL : 7 ≤ L) : 7 ≤ stepCost rt L :=
  le_trans hL (stepCost_ge_L (by linarith))

/-- If one game already fits the remaining time, the sized step fits the
remaining time. -/
lemma stepCost_le_rt {rt L : ℚ} (hL : 0 < L) (hfit : L ≤ rt) :
    stepCost rt L ≤ rt := by
  have hdd : rt / L / 2 = rt / (L * 2) := div_div rt L 2
  by_cases h2 : 2 ≤ jsCeil (rt / L / 2)
  · have h2i : (1 : ℚ) < rt / L / 2 := by
      unfold jsCeil at h2
      have : (1 : ℤ) < ⌈rt / L / 2⌉ := by exact_mod_cast h2
      exact_mod_cast Int.lt_ceil.mp this
    have hrt2 : 2 * L < rt := by
      rw [hdd] at h2i
      have := (one_lt_div (by positivity : (0:ℚ) < L * 2)).mp h2i
      linarith
    have hg3 : stepGames rt L ≤ 3 := by
      unfold stepGames
      rcases le_total (min 3 (jsCeil (rt / L / 2))) 1 with h | h
      · rw [max_eq_left h]; norm_num
      · rw [max_eq_right h]; exact min_le_left _ _
    by_cases h3 : 3 ≤ jsCeil (rt / L / 2)
    · have h3i : (2 : ℚ) < rt / L / 2 := by
        unfold jsCeil at h3
        have : (2 : ℤ) < ⌈rt / L / 2⌉ := by exact_mod_cast h3
        exact_mod_cast Int.lt_ceil.mp this
      have hrt4 : 4 * L < rt := by
        rw [hdd] at h3i
        have h2d : (2 : ℚ) < rt / (L * 2) := h3i
        have := (lt_div_iff (by positivity : (0:ℚ) < L * 2)).mp h2d
        linarith
      unfold stepCost
      nlinarith
    · push_neg at h3
      have hg : stepGames rt L = jsCeil (rt / L / 2) := by
        unfold stepGames
        rw [min_eq_right (by linarith)]
        exact max_eq_right (by linarith)
      have hceil2 : jsCeil (rt / L / 2) ≤ 2 := by
        unfold jsCeil at h3 ⊢
        have : ⌈rt / L / 2⌉ < 3 := by exact_mod_cast h3
        have h2z : ⌈rt / L / 2⌉ ≤ 2 := by omega
        exact_mod_cast h2z
      unfold stepCost
      rw [hg]
      nlinarith
  · push_neg at h2
    have hg : stepGames rt L = 1 := by
      have hle1 : min 3 (jsCeil (rt / L / 2)) ≤ 1 := by
        refine le_trans (min_le_right _ _) ?_
        unfold jsCeil at h2 ⊢
        have : ⌈rt / L / 2⌉ < 2 := by exact_mod_cast h2
        have h1z : ⌈rt / L / 2⌉ ≤ 1 := by omega
        exact_mod_cast h1z
      unfold stepGames
      exact max_eq_left hle1
    unfold stepCost
    rw [hg, one_mul]
    exact hfit

/-- The step-count potential of a remaining time: an upper bound on the
number of steps the greedy loop can still emit. -/
def stepPotential (rt : ℚ) : ℕ :=
  if rt < 7 then 0
  else if rt < 14 then 1
  else if rt < 28 then 2
  else if rt < 42 then 3
  else 4 + (⌊(rt - 42) / 21⌋).toNat

/-- The potential below 14 minutes is at most one. -/
lemma stepPotential_le_one {rt : ℚ} (h : rt < 14) : stepPotential rt ≤ 1 := by
  unfold stepPotential
  split_ifs with h1 h2 h3 h4 <;> first | omega | linarith

/-- The potential below 28 minutes is at most two. -/
lemma stepPotential_le_two {rt : ℚ} (h : rt < 28) : stepPotential rt ≤ 2 := by
  unfold stepPotential
  split_ifs with h1 h2 h3 h4 <;> first | omega | linarith

/-- The potential below 42 minutes is at most three. -/
lemma stepPotential_le_three {rt : ℚ} (h : rt < 42) : stepPotential rt ≤ 3 := by
  unfold stepPotential
  split_ifs with h1 h2 h3 h4 <;> first | omega | linarith

/-- The potential is monotone in the remaining time. -/
lemma stepPotential_mono {a b : ℚ} (h : a ≤ b) :
    stepPotential a ≤ stepPotential b := by
  rcases lt_or_le b 42 with hb | hb
  · rcases lt_or_le a 7 with ha | ha
    · unfold stepPotential
      rw [if_pos ha]
      omega
    · rcases lt_or_le a 14 with ha2 | ha2
      · have : 1 ≤ stepPotential b := by
          unfold stepPotential
          split_ifs <;> first | omega | linarith
        calc stepPotential a ≤ 1 := stepPotential_le_one ha2
        _ ≤ stepPotential b := this
      · rcases lt_or_le a 28 with ha3 | ha3
        · have : 2 ≤ stepPotential b := by
            unfold stepPotential
            split_ifs <;> first | omega | linarith
          calc stepPotential a ≤ 2 := stepPotential_le_two ha3
          _ ≤ stepPotential b := this
        · have h3 : 3 ≤ stepPotential b := by
            unfold stepPotential
            split_ifs <;> first | omega | linarith
          calc stepPotential a ≤ 3 := stepPotential_le_three (lt_of_le_of_lt h hb)
          _ ≤ stepPotential b := h3
  · have hbp : stepPotential b = 4 + (⌊(b - 42) / 21⌋).toNat := by
      unfold stepPotential
      split_ifs <;> first | rfl | linarith
    rcases lt_or_le a 42 with ha | ha
    · rw [hbp]
      calc stepPotential a ≤ 3 := stepPotential_le_three ha
      _ ≤ 4 + (⌊(b - 42) / 21⌋).toNat := by omega
    · have hap : stepPotential a = 4 + (⌊(a - 42) / 21⌋).toNat := by
        unfold stepPotential
        split_ifs <;> first | rfl | linarith
      rw [hap, hbp]
      have hdiv : (a - 42) / 21 ≤ (b - 42) / 21 := by linarith
      have hfl : ⌊(a - 42) / 21⌋ ≤ ⌊(b - 42) / 21⌋ := Int.floor_le_floor hdiv
      omega

/-- One greedy step strictly decreases the potential: a cost of at least
seven minutes that is at least half the remaining time or at least 21
minutes drops the potential by at least one. -/
lemma stepPotential_step {rt c : ℚ} (hc7 : 7 ≤ c) (hcle : c ≤ rt)
    (hdisj : rt ≤ 2 * c ∨ 21 ≤ c) :
    1 + stepPotential (rt - c) ≤ stepPotential rt := by
  have hrt7 : 7 ≤ rt := le_trans hc7 hcle
  rcases lt_or_le rt 14 with h14 | h14
  · have h0 : stepPotential (rt - c) = 0 := by
      unfold stepPotential
      rw [if_pos (by linarith)]
    have h1 : stepPotential rt = 1 := by
      unfold stepPotential
      rw [if_neg (by linarith), if_pos h14]
    omega
  · rcases lt_or_le rt 28 with h28 | h28
    · have h2 : stepPotential rt = 2 := by
        unfold stepPotential
        rw [if_neg (by linarith), if_neg (by linarith), if_pos h28]
      have hrc : rt - c < 14 := by
        rcases hdisj with hd | hd
        · linarith
        · linarith
      have := stepPotential_le_one hrc
      omega
    · rcases lt_or_le rt 42 with h42 | h42
      · have h3 : stepPotential rt = 3 := by
          unfold stepPotential
          rw [if_neg (by linarith), if_neg (by linarith), if_neg (by linarith),
            if_pos h42]
        have hrc : rt - c < 28 := by
          rcases hdisj with hd | hd
          · linarith
          · linarith
        have := stepPotential_le_two hrc
        omega
      · have hc21 : 21 ≤ c := by
          rcases hdisj with hd | hd
          · linarith
          · exact hd
        have hrp : stepPotential rt = 4 + (⌊(rt - 42) / 21⌋).toNat := by
          unfold stepPotential
          split_ifs <;> first | rfl | linarith
        have hmono := stepPotential_mono (by linarith : rt - c ≤ rt - 21)
        rcases lt_or_le (rt - 21) 42 with h63 | h63
        · have := stepPotential_le_three h63
          rw [hrp]
          omega
        · have hq : stepPotential (rt - 21) = 4 + (⌊(rt - 21 - 42) / 21⌋).toNat := by
            unfold stepPotential
            split_ifs <;> first | rfl | linarith
          have hshift : (rt - 42) / 21 = (rt - 21 - 42) / 21 + 1 := by
            field_simp
            ring
          have hfl : ⌊(rt - 42) / 21⌋ = ⌊(rt - 21 - 42) / 21⌋ + 1 := by
            rw [hshift, Int.floor_add_one]
          have hnn : 0 ≤ ⌊(rt - 21 - 42) / 21⌋ :=
            Int.floor_nonneg.mpr (by linarith)
          rw [hrp]
          rw [hq] at hmono
          omega

/-- The potential of a validated time budget is at most ten. -/
lemma stepPotential_le_ten {rt : ℚ} (h : rt ≤ 180) : stepPotential rt ≤ 10 := by
  rcases lt_or_le rt 42 with h42 | h42
  · have := stepPotential_le_three h42
    omega
  · have hrp : stepPotential rt = 4 + (⌊(rt - 42) / 21⌋).toNat := by
      unfold stepPotential
      split_ifs <;> first | rfl | linarith
    have hfl : ⌊(rt - 42) / 21⌋ ≤ 6 := by
      have hlt : (rt - 42) / 21 < ((7 : ℤ) : ℚ) := by push_cast; linarith
      have := Int.floor_lt.mpr hlt
      omega
    rw [hrp]
    omega

/-! ## Structure of the options found by the greedy loop -/

/-- A queue option returned by `evaluateQueueOption` has the sized step
cost as its minutes, fits the remaining time, and is marked as fitting. -/
lemma evaluateQueueOption_some_spec {qt : QueueType} {quests : List Quest}
    {qp : List (String × ℚ)} {cq : List String} {rt w : ℚ} {o : QueueOption}
    (h : evaluateQueueOption qt quests qp cq rt w = some o) :
    o.estimatedMinutes = stepCost rt (QUEUE_REWARDS qt).averageGameLength ∧
    o.estimatedMinutes ≤ rt ∧ o.canCompleteInBudget = true := by
  simp only [evaluateQueueOption, getQueueRewardsWithFallback] at h
  by_cases hlt : rt < max 1 (min 3
      (jsCeil (rt / (QUEUE_REWARDS qt).averageGameLength / 2))) *
      (QUEUE_REWARDS qt).averageGameLength
  · rw [if_pos hlt] at h
    exact absurd h (by simp)
  · rw [if_neg hlt] at h
    rw [Option.some_inj] at h
    subst h
    refine ⟨rfl, not_lt.mp hlt, decide_eq_true (not_lt.mp hlt)⟩

/-- `evaluateQueueOption` succeeds whenever the sized step fits the
remaining time. -/
lemma evaluateQueueOption_isSome (qt : QueueType) (quests : List Quest)
    (qp : List (String × ℚ)) (cq : List String) (rt w : ℚ)
    (hfit : stepCost rt (QUEUE_REWARDS qt).averageGameLength ≤ rt) :
    (evaluateQueueOption qt quests qp cq rt w).isSome = true := by
  unfold stepCost stepGames at hfit
  simp only [evaluateQueueOption, getQueueRewardsWithFallback]
  rw [if_neg (not_lt.mpr hfit)]
  rfl

/-- The fold step of `findBestQueueOption`, named for reuse in proofs. -/
def pickStep (quests : List Quest) (qp : List (String × ℚ))
    (cq : List String) (rt w : ℚ) (best : Option QueueOption)
    (queueType : QueueType) : Option QueueOption :=
  match evaluateQueueOption queueType quests qp cq rt w with
  | none => best
  | some o => pickOption best o

/-- `findBestQueueOption` is the fold of `pickStep` over the allowed
queues. -/
lemma findBestQueueOption_eq_fold (quests : List Quest)
    (qp : List (String × ℚ)) (cq : List String) (rt w : ℚ)
    (settings : UserSettings) :
    findBestQueueOption quests qp cq rt w settings =
    (availableQueues settings).foldl (pickStep quests qp cq rt w) none := rfl

/-- Any option produced by the pick fold is either the starting accumulator
or an option evaluated from some queue in the folded list. -/
lemma foldPick_some {quests : List Quest} {qp : List (String × ℚ)}
    {cq : List String} {rt w : ℚ} :
    ∀ (l : List QueueType) (acc : Option QueueOption) (o : QueueOption),
      l.foldl (pickStep quests qp cq rt w) acc = some o →
      acc = some o ∨ ∃ qt ∈ l, evaluateQueueOption qt quests qp cq rt w = some o := by
  intro l
  induction l with
  | nil => intro acc o h; exact Or.inl h
  | cons qt l ih =>
    intro acc o h
    rw [List.foldl_cons] at h
    rcases ih _ o h with hacc | ⟨qt2, hmem, heval⟩
    · unfold pickStep at hacc
      cases heval : evaluateQueueOption qt quests qp cq rt w with
      | none => rw [heval] at hacc; exact Or.inl hacc
      | some oo =>
        rw [heval] at hacc
        dsimp only at hacc
        unfold pickOption at hacc
        split at hacc
        · rw [Option.some_inj] at hacc
          subst hacc
          exact Or.inr ⟨qt, List.mem_cons_self qt l, heval⟩
        · exact Or.inl hacc
    · exact Or.inr ⟨qt2, List.mem_cons_of_mem qt hmem, heval⟩

/-- Keeping or replacing the incumbent preserves having found an option. -/
lemma pickOption_isSome_right (acc : Option QueueOption) (o : QueueOption)
    (h : acc.isSome = true) : (pickOption acc o).isSome = true := by
  unfold pickOption
  split_ifs with hc
  · rfl
  · exact h

/-- A fitting candidate always leaves the accumulator with an option. -/
lemma pickOption_isSome_of_fit (acc : Option QueueOption) (o : QueueOption)
    (hcc : o.canCompleteInBudget = true) :
    (pickOption acc o).isSome = true := by
  unfold pickOption
  cases acc with
  | none => simp [hcc]
  | some b => split_ifs <;> rfl

/-- The pick fold never loses an already-found option. -/
lemma foldPick_isSome_preserved {quests : List Quest} {qp : List (String × ℚ)}
    {cq : List String} {rt w : ℚ} :
    ∀ (l : List QueueType) (acc : Option QueueOption), acc.isSome = true →
      (l.foldl (pickStep quests qp cq rt w) acc).isSome = true := by
  intro l
  induction l with
  | nil => intro acc h; exact h
  | cons qt l ih =>
    intro acc h
    rw [List.foldl_cons]
    refine ih _ ?_
    unfold pickStep
    cases heval : evaluateQueueOption qt quests qp cq rt w with
    | none => exact h
    | some oo =>
      exact pickOption_isSome_right acc oo h

/-- The pick fold finds an option as soon as some folded queue evaluates to
one. -/
lemma foldPick_isSome_of_mem {quests : List Quest} {qp : List (String × ℚ)}
    {cq : List String} {rt w : ℚ} :
    ∀ (l : List QueueType) (acc : Option QueueOption) (qt : QueueType),
      qt ∈ l → (evaluateQueueOption qt quests qp cq rt w).isSome = true →
      (l.foldl (pickStep quests qp cq rt w) acc).isSome = true := by
  intro l
  induction l with
  | nil => intro acc qt hmem; exact absurd hmem (List.not_mem_nil qt)
  | cons hd l ih =>
    intro acc qt hmem heval
    rw [List.foldl_cons]
    rcases List.mem_cons.mp hmem with heq | hmem2
    · subst heq
      obtain ⟨o, ho⟩ := Option.isSome_iff_exists.mp heval
      refine foldPick_isSome_preserved l _ ?_
      unfold pickStep
      rw [ho]
      have hcc := (evaluateQueueOption_some_spec ho).2.2
      exact pickOption_isSome_of_fit acc o hcc
    · exact ih _ qt hmem2 heval

/-- A best option found by `findBestQueueOption` comes from evaluating one
of the allowed queues. -/
lemma findBestQueueOption_some {quests : List Quest} {qp : List (String × ℚ)}
    {cq : List String} {rt w : ℚ} {settings : UserSettings} {o : QueueOption}
    (h : findBestQueueOption quests qp cq rt w settings = some o) :
    ∃ qt ∈ availableQueues settings,
      evaluateQueueOption qt quests qp cq rt w = some o := by
  rw [findBestQueueOption_eq_fold] at h
  rcases foldPick_some (availableQueues settings) none o h with hacc | hfound
  · exact absurd hacc (by simp)
  · exact hfound

/-- The cost facts of a best option: its minutes fit the remaining time,
are at least seven, and are at least half the remaining time or at least
21. -/
lemma findBestQueueOption_cost {quests : List Quest} {qp : List (String × ℚ)}
    {cq : List String} {rt w : ℚ} {settings : UserSettings} {o : QueueOption}
    (h : findBestQueueOption quests qp cq rt w settings = some o)
    (hrt : 0 < rt) :
    o.estimatedMinutes ≤ rt ∧ 7 ≤ o.estimatedMinutes ∧
    (rt ≤ 2 * o.estimatedMinutes ∨ 21 ≤ o.estimatedMinutes) := by
  obtain ⟨qt, _, heval⟩ := findBestQueueOption_some h
  obtain ⟨hcost, hle, _⟩ := evaluateQueueOption_some_spec heval
  have hL := averageGameLength_ge_seven qt
  refine ⟨hle, ?_, ?_⟩
  · rw [hcost]; exact stepCost_ge_seven hL
  · rw [hcost]; exact stepCost_half_or_21 hrt hL

/-! ## Invariants of the greedy loop -/

/-- Summing plan-step minutes by `foldl` from an arbitrary start. -/
lemma foldl_minutes (l : List PlanStep) (a : ℚ) :
    l.foldl (fun s st => s + st.estimatedMinutes) a =
    a + (l.map PlanStep.estimatedMinutes).sum := by
  induction l generalizing a with
  | nil => simp
  | cons hd tl ih =>
    rw [List.foldl_cons, ih, List.map_cons, List.sum_cons]
    ring

/-- Summing plan-step rewards by `foldl` from an arbitrary start, gold
component. -/
lemma foldl_rewards_gold (l : List PlanStep) (a : Rewards) :
    (l.foldl (fun (s : Rewards) st =>
      { gold := s.gold + st.expectedRewards.gold
        gems := s.gems + st.expectedRewards.gems
        packs := s.packs + st.expectedRewards.packs }) a).gold =
    a.gold + (l.map (fun st => st.expectedRewards.gold)).sum := by
  induction l generalizing a with
  | nil => simp
  | cons hd tl ih =>
    rw [List.foldl_cons, ih, List.map_cons, List.sum_cons]
    simp only []
    ring

/-- Summing plan-step rewards by `foldl` from an arbitrary start, gems
component. -/
lemma foldl_rewards_gems (l : List PlanStep) (a : Rewards) :
    (l.foldl (fun (s : Rewards) st =>
      { gold := s.gold + st.expectedRewards.gold
        gems := s.gems + st.expectedRewards.gems
        packs := s.packs + st.expectedRewards.packs }) a).gems =
    a.gems + (l.map (fun st => st.expectedRewards.gems)).sum := by
  induction l generalizing a with
  | nil => simp
  | cons hd tl ih =>
    rw [List.foldl_cons, ih, List.map_cons, List.sum_cons]
    simp only []
    ring

/-- Summing plan-step rewards by `foldl` from an arbitrary start, packs
component. -/
lemma foldl_rewards_packs (l : List PlanStep) (a : Rewards) :
    (l.foldl (fun (s : Rewards) st =>
      { gold := s.gold + st.expectedRewards.gold
        gems := s.gems + st.expectedRewards.gems
        packs := s.packs + st.expectedRewards.packs }) a).packs =
    a.packs + (l.map (fun st => st.expectedRewards.packs)).sum := by
  induction l generalizing a with
  | nil => simp
  | cons hd tl ih =>
    rw [List.foldl_cons, ih, List.map_cons, List.sum_cons]
    simp only []
    ring

/-- The minutes of the steps emitted by the greedy loop sum to at most the
remaining time it started from. -/
lemma greedyLoop_sum_minutes (gen : Nat → String) (quests : List Quest)
    (w : ℚ) (settings : UserSettings) :
    ∀ (fuel : Nat) (rt : ℚ) (qp : List (String × ℚ)) (cq : List String)
      (ctr : Nat), 0 ≤ rt →
      ((greedyLoop gen quests w settings fuel rt qp cq ctr).1.map
        PlanStep.estimatedMinutes).sum ≤ rt := by
  intro fuel
  induction fuel with
  | zero => intro rt qp cq ctr h; simpa [greedyLoop] using h
  | succ fuel ih =>
    intro rt qp cq ctr h
    simp only [greedyLoop]
    split_ifs with hcond
    · cases hbest : findBestQueueOption quests qp cq rt w settings with
      | none => simpa using h
      | some bestOption =>
        dsimp only
        by_cases hfit : rt < bestOption.estimatedMinutes
        · rw [if_pos hfit]
          simpa using h
        · rw [if_neg hfit]
          dsimp only
          simp only [List.map_cons, List.sum_cons]
          have hrest := ih (rt - bestOption.estimatedMinutes)
            (applyOptionProgress bestOption.questProgress qp cq).1
            (applyOptionProgress bestOption.questProgress qp cq).2 (ctr + 1)
            (by linarith [not_lt.mp hfit])
          have hstep : (createPlanStep (gen ctr) bestOption qp).estimatedMinutes =
              bestOption.estimatedMinutes := rfl
          rw [hstep]
          linarith
    · simpa using h

/-- The greedy loop emits at most `stepPotential rt` steps from remaining
time `rt`. -/
lemma greedyLoop_length_le (gen : Nat → String) (quests : List Quest)
    (w : ℚ) (settings : UserSettings) :
    ∀ (fuel : Nat) (rt : ℚ) (qp : List (String × ℚ)) (cq : List String)
      (ctr : Nat),
      (greedyLoop gen quests w settings fuel rt qp cq ctr).1.length ≤
        stepPotential rt := by
  intro fuel
  induction fuel with
  | zero => intro rt qp cq ctr; simp [greedyLoop]
  | succ fuel ih =>
    intro rt qp cq ctr
    simp only [greedyLoop]
    split_ifs with hcond
    · cases hbest : findBestQueueOption quests qp cq rt w settings with
      | none => simp
      | some bestOption =>
        dsimp only
        by_cases hfit : rt < bestOption.estimatedMinutes
        · rw [if_pos hfit]; simp
        · rw [if_neg hfit]
          dsimp only
          simp only [List.length_cons]
          obtain ⟨hle, h7, hdisj⟩ := findBestQueueOption_cost hbest hcond.1
          have hstep := stepPotential_step h7 hle hdisj
          have hrest := ih (rt - bestOption.estimatedMinutes)
            (applyOptionProgress bestOption.questProgress qp cq).1
            (applyOptionProgress bestOption.questProgress qp cq).2 (ctr + 1)
          omega
    · simp

/-- With positive fuel, remaining time, an incomplete quest and a best
option available, the greedy loop emits at least one step. -/
lemma greedyLoop_length_pos (gen : Nat → String) (quests : List Quest)
    (w : ℚ) (settings : UserSettings) (fuel : Nat) (rt : ℚ)
    (qp : List (String × ℚ)) (cq : List String) (ctr : Nat)
    (hfuel : 0 < fuel) (hrt : 0 < rt) (hsz : cq.length < qp.length)
    (hbest : (findBestQueueOption quests qp cq rt w settings).isSome = true) :
    0 < (greedyLoop gen quests w settings fuel rt qp cq ctr).1.length := by
  obtain ⟨o, ho⟩ := Option.isSome_iff_exists.mp hbest
  obtain ⟨fuel2, rfl⟩ : ∃ fuel2, fuel = fuel2 + 1 :=
    ⟨fuel - 1, by omega⟩
  simp only [greedyLoop]
  rw [if_pos ⟨hrt, hsz⟩, ho]
  obtain ⟨qt, _, heval⟩ := findBestQueueOption_some ho
  obtain ⟨_, hle, _⟩ := evaluateQueueOption_some_spec heval
  dsimp only
  rw [if_neg (not_lt.mpr hle)]
  simp

/-! ## Shape of a successful optimization -/

/-- The steps of a generated plan are the greedy loop's output. -/
lemma generateOptimizedPlan_steps (gen : Nat → String) (now : ℚ)
    (quests : List Quest) (tB w : ℚ) (s : UserSettings) :
    (generateOptimizedPlan gen now quests tB w s).steps =
    (greedyLoop gen quests w s optimizerFuel tB
      (quests.foldl (fun m q => mapSet m q.id q.remaining) []) [] 0).1 := rfl

/-- The aggregate minutes of a generated plan are the sum of its steps'
minutes. -/
lemma generateOptimizedPlan_totalMinutes (gen : Nat → String) (now : ℚ)
    (quests : List Quest) (tB w : ℚ) (s : UserSettings) :
    (generateOptimizedPlan gen now quests tB w s).totalEstimatedMinutes =
    ((generateOptimizedPlan gen now quests tB w s).steps.map
      PlanStep.estimatedMinutes).sum := by
  simp only [generateOptimizedPlan]
  rw [foldl_minutes, zero_add]

/-- The aggregate rewards of a generated plan are the component-wise sums of
its steps' rewards. -/
lemma generateOptimizedPlan_totalRewards (gen : Nat → String) (now : ℚ)
    (quests : List Quest) (tB w : ℚ) (s : UserSettings) :
    (generateOptimizedPlan gen now quests tB w s).totalExpectedRewards.gold =
      ((generateOptimizedPlan gen now quests tB w s).steps.map
        (fun st => st.expectedRewards.gold)).sum ∧
    (generateOptimizedPlan gen now quests tB w s).totalExpectedRewards.gems =
      ((generateOptimizedPlan gen now quests tB w s).steps.map
        (fun st => st.expectedRewards.gems)).sum ∧
    (generateOptimizedPlan gen now quests tB w s).totalExpectedRewards.packs =
      ((generateOptimizedPlan gen now quests tB w s).steps.map
        (fun st => st.expectedRewards.packs)).sum := by
  simp only [generateOptimizedPlan]
  refine ⟨?_, ?_, ?_⟩
  · rw [foldl_rewards_gold]; simp
  · rw [foldl_rewards_gems]; simp
  · rw [foldl_rewards_packs]; simp

/-- The aggregate minutes of a generated plan never exceed a nonnegative
time budget. -/
lemma generateOptimizedPlan_minutes_le (gen : Nat → String) (now : ℚ)
    (quests : List Quest) (tB w : ℚ) (s : UserSettings) (h : 0 ≤ tB) :
    (generateOptimizedPlan gen now quests tB w s).totalEstimatedMinutes ≤ tB := by
  rw [generateOptimizedPlan_totalMinutes, generateOptimizedPlan_steps]
  exact greedyLoop_sum_minutes gen quests w s optimizerFuel tB _ [] 0 h

/-- Bounds extracted from a successful input validation. -/
lemma validate_bounds {quests : List Quest} {tB w : ℚ}
    {settings : Option UserSettings}
    (h : validateOptimizationInput quests tB w settings = true) :
    15 ≤ tB ∧ tB ≤ 180 ∧ 3/10 ≤ w ∧ w ≤ 4/5 := by
  unfold validateOptimizationInput at h
  simp only [Bool.and_eq_true, decide_eq_true_eq] at h
  refine ⟨by tauto, by tauto, by tauto, by tauto⟩

/-- A successful `optimizePlan` call validated its input and returned a plan
generated from the nonempty list of feasible active quests. -/
lemma optimizePlan_success_spec {gen : Nat → String} {now : ℚ}
    {quests : List Quest} {tB w : ℚ} {settings : Option UserSettings}
    (h : (optimizePlan gen now quests tB w settings).success = true) :
    validateOptimizationInput quests tB w settings = true ∧
    ∃ feasible : List Quest,
      feasible ≠ [] ∧
      (∀ q ∈ feasible, 0 < q.remaining ∧
        canQuestBeCompletedInTime q tB w
          (settings.getD createDefaultSettings).preferredQueues = true) ∧
      (optimizePlan gen now quests tB w settings).plan =
        some (generateOptimizedPlan gen now feasible tB w
          (settings.getD createDefaultSettings)) := by
  unfold optimizePlan at h ⊢
  by_cases hv : validateOptimizationInput quests tB w settings = true
  · rw [if_neg (by simp [hv])] at h ⊢
    dsimp only at h ⊢
    by_cases ha : (quests.filter (fun quest => 0 < quest.remaining)).length = 0
    · rw [if_pos ha] at h
      exact absurd h (by simp)
    · rw [if_neg ha] at h ⊢
      by_cases hf : ((quests.filter (fun quest => 0 < quest.remaining)).filter
          (fun quest => canQuestBeCompletedInTime quest tB w
            (settings.getD createDefaultSettings).preferredQueues)).length = 0
      · rw [if_pos hf] at h
        exact absurd h (by simp)
      · rw [if_neg hf] at h ⊢
        refine ⟨hv, (quests.filter (fun quest => 0 < quest.remaining)).filter
          (fun quest => canQuestBeCompletedInTime quest tB w
            (settings.getD createDefaultSettings).preferredQueues), ?_, ?_, rfl⟩
        · intro hnil
          rw [hnil] at hf
          exact hf rfl
        · intro q hq
          have hq2 := List.mem_filter.mp hq
          have hq3 := List.mem_filter.mp hq2.1
          exact ⟨by simpa using hq3.2, hq2.2⟩
  · rw [if_pos (by simpa using hv)] at h
    exact absurd h (by simp)

/-! ## Feasibility yields a first step -/

/-- A feasible quest with positive remaining count exhibits an allowed
queue whose single-game length fits the budget. -/
lemma canQuest_gives_queue {quest : Quest} {tB w : ℚ}
    {prefs : List QueueType} (hrem : 0 < quest.remaining)
    (h : canQuestBeCompletedInTime quest tB w prefs = true) :
    ∃ qt ∈ (if prefs.length ≠ 0 then prefs else getAllQueueTypes),
      (QUEUE_REWARDS qt).averageGameLength ≤ tB := by
  unfold canQuestBeCompletedInTime at h
  rw [List.any_eq_true] at h
  obtain ⟨qt, hmem, hcan⟩ := h
  refine ⟨qt, hmem, ?_⟩
  unfold estimateQuestCompletion at hcan
  dsimp only at hcan
  cases hmin : (calculateQuestProgressRate quest qt w).estimatedMinutesToComplete with
  | none => rw [hmin] at hcan; exact absurd hcan (by simp)
  | some m =>
    rw [hmin] at hcan
    have hm : m ≤ tB := of_decide_eq_true hcan
    unfold calculateQuestProgressRate getQueueRewardsWithFallback at hmin
    dsimp only at hmin
    rw [if_neg (ne_of_gt hrem)] at hmin
    split at hmin
    · exact absurd hmin (by simp)
    · rename_i g heq
      rw [Option.some_inj] at hmin
      rw [if_neg (ne_of_gt hrem)] at heq
      have hL := averageGameLength_ge_seven qt
      split at heq
      · rw [Option.some_inj] at heq
        rename_i hppg
        have hg := one_le_jsCeil (div_pos hrem hppg)
        rw [heq] at hg
        have hLm : (QUEUE_REWARDS qt).averageGameLength ≤ m := by
          rw [← hmin]
          nlinarith
        linarith
      · exact absurd heq (by simp)

/-- Replacing a map binding never shrinks the map. -/
lemma mapSet_length_ge (m : List (String × ℚ)) (k : String) (v : ℚ) :
    m.length ≤ (mapSet m k v).length := by
  induction m with
  | nil => simp [mapSet]
  | cons p rest ih =>
    unfold mapSet
    split_ifs with hk
    · simp
    · simpa using ih

/-- Folding map insertions never shrinks the map. -/
lemma foldl_mapSet_length (l : List Quest) :
    ∀ init : List (String × ℚ),
      init.length ≤ (l.foldl (fun m q => mapSet m q.id q.remaining) init).length := by
  induction l with
  | nil => intro init; simp
  | cons q rest ih =>
    intro init
    rw [List.foldl_cons]
    exact le_trans (mapSet_length_ge init q.id q.remaining) (ih _)

/-- The initial quest-progress map of a nonempty quest list is nonempty. -/
lemma questProgress0_length_pos (l : List Quest) (hl : l ≠ []) :
    0 < (l.foldl (fun m q => mapSet m q.id q.remaining) []).length := by
  cases l with
  | nil => exact absurd rfl hl
  | cons q rest =>
    rw [List.foldl_cons]
    have h1 : (mapSet [] q.id q.remaining).length = 1 := rfl
    have := foldl_mapSet_length rest (mapSet [] q.id q.remaining)
    omega

/-- C2: Every plan in a successful result of `optimizePlan` has aggregate
minutes equal to the sum of its steps' minutes and not exceeding the time
budget argument, and aggregate rewards equal to the component-wise sums of
its steps' rewards. -/
theorem C2_successful_plan_totals (gen : Nat → String) (now : ℚ)
    (quests : List Quest) (tB w : ℚ) (settings : Option UserSettings)
    (h : (optimizePlan gen now quests tB w settings).success = true) :
    ∃ plan, (optimizePlan gen now quests tB w settings).plan = some plan ∧
      plan.totalEstimatedMinutes = (plan.steps.map PlanStep.estimatedMinutes).sum ∧
      plan.totalEstimatedMinutes ≤ tB ∧
      plan.totalExpectedRewards.gold =
        (plan.steps.map (fun st => st.expectedRewards.gold)).sum ∧
      plan.totalExpectedRewards.gems =
        (plan.steps.map (fun st => st.expectedRewards.gems)).sum ∧
      plan.totalExpectedRewards.packs =
        (plan.steps.map (fun st => st.expectedRewards.packs)).sum := by
  obtain ⟨hv, feasible, hne, hprops, hplan⟩ := optimizePlan_success_spec h
  obtain ⟨h15, h180, hw1, hw2⟩ := validate_bounds hv
  obtain ⟨hg, hgem, hp⟩ := generateOptimizedPlan_totalRewards gen now feasible tB w
    (settings.getD createDefaultSettings)
  exact ⟨_, hplan, generateOptimizedPlan_totalMinutes gen now feasible tB w _,
    generateOptimizedPlan_minutes_le gen now feasible tB w _ (by linarith),
    hg, hgem, hp⟩

/-- C3: Every plan in a successful result of `optimizePlan` contains
between 1 and 10 steps. -/
theorem C3_plan_step_count (gen : Nat → String) (now : ℚ)
    (quests : List Quest) (tB w : ℚ) (settings : Option UserSettings)
    (h : (optimizePlan gen now quests tB w settings).success = true) :
    ∃ plan, (optimizePlan gen now quests tB w settings).plan = some plan ∧
      1 ≤ plan.steps.length ∧ plan.steps.length ≤ 10 := by
  obtain ⟨hv, feasible, hne, hprops, hplan⟩ := optimizePlan_success_spec h
  obtain ⟨h15, h180, hw1, hw2⟩ := validate_bounds hv
  refine ⟨_, hplan, ?_, ?_⟩
  · rw [generateOptimizedPlan_steps]
    set us := settings.getD createDefaultSettings with hus
    set qp0 := feasible.foldl (fun m q => mapSet m q.id q.remaining) [] with hqp0
    obtain ⟨q0, hq0⟩ := List.exists_mem_of_ne_nil feasible hne
    obtain ⟨hrem, hcan⟩ := hprops q0 hq0
    obtain ⟨qt, hqt, hLle⟩ := canQuest_gives_queue hrem hcan
    have hL7 := averageGameLength_ge_seven qt
    have hLpos : (0 : ℚ) < (QUEUE_REWARDS qt).averageGameLength := by linarith
    have hfit := stepCost_le_rt hLpos hLle
    have heval := evaluateQueueOption_isSome qt feasible qp0 [] tB w hfit
    have hbest : (findBestQueueOption feasible qp0 [] tB w us).isSome = true := by
      rw [findBestQueueOption_eq_fold]
      exact foldPick_isSome_of_mem _ none qt hqt heval
    have htB : (0 : ℚ) < tB := by linarith
    have hsz0 := questProgress0_length_pos feasible hne
    rw [← hqp0] at hsz0
    have hpos := greedyLoop_length_pos gen feasible w us optimizerFuel tB
      qp0 [] 0 optimizerFuel_pos htB (by simpa using hsz0) hbest
    omega
  · rw [generateOptimizedPlan_steps]
    set us := settings.getD createDefaultSettings with hus
    set qp0 := feasible.foldl (fun m q => mapSet m q.id q.remaining) [] with hqp0
    have h1 := greedyLoop_length_le gen feasible w us optimizerFuel tB qp0 [] 0
    have h2 := stepPotential_mono h180
    have h3 := stepPotential_le_ten (le_refl (180 : ℚ))
    omega

/-- Concrete quest used by the witnesses: a valid cast quest completable
well inside a one-hour budget. -/
def witnessQuest : Quest :=
  { id := "00000000-0000-0000-0000-000000000001"
    type := .cast
    description := "Cast 20 spells"
    remaining := 20
    expiresInDays := 3
    colors := none
    createdAt := 0
    updatedAt := 0 }

/-- Concrete id generator used by the witnesses. -/
def witnessGen : Nat → String := fun n => toString n

/-- Witness for C2 at a concrete successful optimization. -/
theorem C2_successful_plan_totals_witness :
    ∃ plan, (optimizePlan witnessGen 0 [witnessQuest] 60 (3/5) none).plan = some plan ∧
      plan.totalEstimatedMinutes = (plan.steps.map PlanStep.estimatedMinutes).sum ∧
      plan.totalEstimatedMinutes ≤ 60 ∧
      plan.totalExpectedRewards.gold =
        (plan.steps.map (fun st => st.expectedRewards.gold)).sum ∧
      plan.totalExpectedRewards.gems =
        (plan.steps.map (fun st => st.expectedRewards.gems)).sum ∧
      plan.totalExpectedRewards.packs =
        (plan.steps.map (fun st => st.expectedRewards.packs)).sum :=
  C2_successful_plan_totals witnessGen 0 [witnessQuest] 60 (3/5) none
    (by with_unfolding_all decide)

/-- Witness for C3 at a concrete successful optimization. -/
theorem C3_plan_step_count_witness :
    ∃ plan, (optimizePlan witnessGen 0 [witnessQuest] 60 (3/5) none).plan = some plan ∧
      1 ≤ plan.steps.length ∧ plan.steps.length ≤ 10 :=
  C3_plan_step_count witnessGen 0 [witnessQuest] 60 (3/5) none
    (by with_unfolding_all decide)

/-! ## Selection order of the greedy choice

`findBestQueueOption` keeps the incumbent option unless a strictly
higher-priority fitting option appears later in the iteration order of the
allowed queues. Ties in priority therefore go to the earliest queue in that
iteration order -- not to the quest with the soonest expiry and not to the
lexicographically-first queue identifier. -/

/-- Picking against an empty accumulator takes any fitting candidate. -/
lemma pickOption_none (oh : QueueOption) (hcc : oh.canCompleteInBudget = true) :
    pickOption none oh = some oh := by
  simp [pickOption, hcc]

/-- A strictly better fitting candidate replaces the incumbent. -/
lemma pickOption_some_lt (b oh : QueueOption)
    (hcc : oh.canCompleteInBudget = true)
    (hlt : b.priority < oh.priority) :
    pickOption (some b) oh = some oh := by
  simp [pickOption, hcc, hlt]

/-- A candidate that is not strictly better leaves the incumbent. -/
lemma pickOption_some_ge (b oh : QueueOption)
    (hge : ¬b.priority < oh.priority) :
    pickOption (some b) oh = some b := by
  simp [pickOption, hge]

/-- Characterization of the pick fold: the result is either the surviving
accumulator, bounding every later option, or the first evaluated option of
maximal priority, strictly exceeding all earlier options and the
accumulator. -/
lemma foldPick_first_max {quests : List Quest} {qp : List (String × ℚ)}
    {cq : List String} {rt w : ℚ} :
    ∀ (l : List QueueType) (acc : Option QueueOption) (o : QueueOption),
      l.foldl (pickStep quests qp cq rt w) acc = some o →
      ((acc = some o ∧ ∀ (j : ℕ) (hj : j < l.length) (o2 : QueueOption),
          evaluateQueueOption (l.get ⟨j, hj⟩) quests qp cq rt w = some o2 →
          o2.priority ≤ o.priority)
       ∨ (∃ (i : ℕ) (hi : i < l.length),
          evaluateQueueOption (l.get ⟨i, hi⟩) quests qp cq rt w = some o ∧
          (∀ (j : ℕ) (hj : j < l.length) (o2 : QueueOption),
            evaluateQueueOption (l.get ⟨j, hj⟩) quests qp cq rt w = some o2 →
            o2.priority ≤ o.priority) ∧
          (∀ (j : ℕ) (hj : j < l.length), j < i → ∀ o2 : QueueOption,
            evaluateQueueOption (l.get ⟨j, hj⟩) quests qp cq rt w = some o2 →
            o2.priority < o.priority) ∧
          (∀ b : QueueOption, acc = some b → b.priority < o.priority))) := by
  intro l
  induction l with
  | nil =>
    intro acc o h
    exact Or.inl ⟨h, fun j hj => absurd hj (by simp)⟩
  | cons hd tl ih =>
    intro acc o h
    rw [List.foldl_cons] at h
    cases heval : evaluateQueueOption hd quests qp cq rt w with
    | none =>
      have hstep : pickStep quests qp cq rt w acc hd = acc := by
        unfold pickStep
        rw [heval]
      rw [hstep] at h
      rcases ih acc o h with ⟨hacc, hbound⟩ | ⟨i, hi, heval2, hbound, hstrict, haccb⟩
      · refine Or.inl ⟨hacc, ?_⟩
        intro j hj o2 hj2
        cases j with
        | zero => simp only [List.get] at hj2; rw [heval] at hj2; exact absurd hj2 (by simp)
        | succ j => exact hbound j (by simpa using hj) o2 (by simpa using hj2)
      · refine Or.inr ⟨i + 1, by simpa using hi, by simpa using heval2, ?_, ?_, haccb⟩
        · intro j hj o2 hj2
          cases j with
          | zero => simp only [List.get] at hj2; rw [heval] at hj2; exact absurd hj2 (by simp)
          | succ j => exact hbound j (by simpa using hj) o2 (by simpa using hj2)
        · intro j hj hji o2 hj2
          cases j with
          | zero => simp only [List.get] at hj2; rw [heval] at hj2; exact absurd hj2 (by simp)
          | succ j => exact hstrict j (by simpa using hj) (by omega) o2 (by simpa using hj2)
    | some oh =>
      have hcc := (evaluateQueueOption_some_spec heval).2.2
      have hstep : pickStep quests qp cq rt w acc hd = pickOption acc oh := by
        unfold pickStep
        rw [heval]
      rw [hstep] at h
      cases acc with
      | none =>
        rw [pickOption_none oh hcc] at h
        rcases ih (some oh) o h with ⟨hacc, hbound⟩ | ⟨i, hi, heval2, hbound, hstrict, haccb⟩
        · rw [Option.some_inj] at hacc
          subst hacc
          refine Or.inr ⟨0, by simp, by simpa using heval, ?_, by omega, ?_⟩
          · intro j hj o2 hj2
            cases j with
            | zero =>
              simp only [List.get] at hj2
              rw [heval] at hj2
              rw [Option.some_inj] at hj2
              subst hj2
              exact le_refl _
            | succ j => exact hbound j (by simpa using hj) o2 (by simpa using hj2)
          · intro b hb
            exact absurd hb (by simp)
        · refine Or.inr ⟨i + 1, by simpa using hi, by simpa using heval2, ?_, ?_, ?_⟩
          · intro j hj o2 hj2
            cases j with
            | zero =>
              simp only [List.get] at hj2
              rw [heval] at hj2
              rw [Option.some_inj] at hj2
              subst hj2
              exact (haccb oh rfl).le
            | succ j => exact hbound j (by simpa using hj) o2 (by simpa using hj2)
          · intro j hj hji o2 hj2
            cases j with
            | zero =>
              simp only [List.get] at hj2
              rw [heval] at hj2
              rw [Option.some_inj] at hj2
              subst hj2
              exact haccb oh rfl
            | succ j => exact hstrict j (by simpa using hj) (by omega) o2 (by simpa using hj2)
          · intro b hb
            exact absurd hb (by simp)
      | some b =>
        by_cases hlt : b.priority < oh.priority
        · rw [pickOption_some_lt b oh hcc hlt] at h
          rcases ih (some oh) o h with ⟨hacc, hbound⟩ | ⟨i, hi, heval2, hbound, hstrict, haccb⟩
          · rw [Option.some_inj] at hacc
            subst hacc
            refine Or.inr ⟨0, by simp, by simpa using heval, ?_, by omega, ?_⟩
            · intro j hj o2 hj2
              cases j with
              | zero =>
                simp only [List.get] at hj2
                rw [heval] at hj2
                rw [Option.some_inj] at hj2
                subst hj2
                exact le_refl _
              | succ j => exact hbound j (by simpa using hj) o2 (by simpa using hj2)
            · intro b2 hb2
              rw [Option.some_inj] at hb2
              subst hb2
              exact hlt
          · have hoho : oh.priority < o.priority := haccb oh rfl
            refine Or.inr ⟨i + 1, by simpa using hi, by simpa using heval2, ?_, ?_, ?_⟩
            · intro j hj o2 hj2
              cases j with
              | zero =>
                simp only [List.get] at hj2
                rw [heval] at hj2
                rw [Option.some_inj] at hj2
                subst hj2
                exact hoho.le
              | succ j => exact hbound j (by simpa using hj) o2 (by simpa using hj2)
            · intro j hj hji o2 hj2
              cases j with
              | zero =>
                simp only [List.get] at hj2
                rw [heval] at hj2
                rw [Option.some_inj] at hj2
                subst hj2
                exact hoho
              | succ j => exact hstrict j (by simpa using hj) (by omega) o2 (by simpa using hj2)
            · intro b2 hb2
              rw [Option.some_inj] at hb2
              subst hb2
              exact lt_trans hlt hoho
        · rw [pickOption_some_ge b oh hlt] at h
          rcases ih (some b) o h with ⟨hacc, hbound⟩ | ⟨i, hi, heval2, hbound, hstrict, haccb⟩
          · rw [Option.some_inj] at hacc
            subst hacc
            refine Or.inl ⟨rfl, ?_⟩
            intro j hj o2 hj2
            cases j with
            | zero =>
              simp only [List.get] at hj2
              rw [heval] at hj2
              rw [Option.some_inj] at hj2
              subst hj2
              exact not_lt.mp hlt
            | succ j => exact hbound j (by simpa using hj) o2 (by simpa using hj2)
          · have hbo : b.priority < o.priority := haccb b rfl
            refine Or.inr ⟨i + 1, by simpa using hi, by simpa using heval2, ?_, ?_, ?_⟩
            · intro j hj o2 hj2
              cases j with
              | zero =>
                simp only [List.get] at hj2
                rw [heval] at hj2
                rw [Option.some_inj] at hj2
                subst hj2
                exact lt_of_le_of_lt (not_lt.mp hlt) hbo |>.le
              | succ j => exact hbound j (by simpa using hj) o2 (by simpa using hj2)
            · intro j hj hji o2 hj2
              cases j with
              | zero =>
                simp only [List.get] at hj2
                rw [heval] at hj2
                rw [Option.some_inj] at hj2
                subst hj2
                exact lt_of_le_of_lt (not_lt.mp hlt) hbo
              | succ j => exact hstrict j (by simpa using hj) (by omega) o2 (by simpa using hj2)
            · intro b2 hb2
              rw [Option.some_inj] at hb2
              subst hb2
              exact hbo

/-- Settings whose preferred queues are two reward-identical queues, the
lexicographically later one first. -/
def tieSettings : UserSettings :=
  { defaultWinRate := 1/2
    preferredQueues := [.standard_bo1, .explorer_bo1]
    minutesPerGame := 8 }

/-- The option the optimizer actually selects in the tie scenario (the
standard queue evaluated at a half win rate with 60 minutes remaining). -/
def tieOption : QueueOption :=
  { queueType := .standard_bo1
    ev :=
      { expectedValue := 975/32
        expectedGold := 975/32
        expectedGems := 0
        expectedPacks := 0
        entryCost := 0
        netValue := 975/32
        evPerMinute := 975/256 }
    questCompletionBonus := 0
    questProgress := []
    estimatedMinutes := 24
    canCompleteInBudget := true
    priority := 975/256 }

/-- C4, counterexample: standard_bo1 and explorer_bo1 have identical reward
profiles, so at the same optimizer state their options tie in priority and
touch the same quests, and the explorer queue identifier is
lexicographically first; yet the optimizer selects standard_bo1, the queue
earlier in the iteration order, refuting the claimed
soonest-expiry/lexicographic tie-break. -/
theorem C4_tiebreak_counterexample :
    ((evaluateQueueOption .standard_bo1 [] [] [] 60 (1/2)).map
        QueueOption.priority =
      (evaluateQueueOption .explorer_bo1 [] [] [] 60 (1/2)).map
        QueueOption.priority) ∧
    ((evaluateQueueOption .standard_bo1 [] [] [] 60 (1/2)).map
        QueueOption.questProgress =
      (evaluateQueueOption .explorer_bo1 [] [] [] 60 (1/2)).map
        QueueOption.questProgress) ∧
    QueueType.ident .explorer_bo1 < QueueType.ident .standard_bo1 ∧
    (findBestQueueOption [] [] [] 60 (1/2) tieSettings).map
        QueueOption.queueType ≠ some .explorer_bo1 ∧
    (findBestQueueOption [] [] [] 60 (1/2) tieSettings).map
        QueueOption.queueType = some .standard_bo1 := by
  set_option maxRecDepth 2000 in with_unfolding_all decide

/-- C4, amended: at each greedy iteration the optimizer selects, among the
queue options that fit the remaining time, the first option in the
allowed-queue iteration order attaining the maximum priority; equal-priority
ties go to the earlier queue in that order rather than to the soonest
expiry or the lexicographically-first identifier. -/
theorem C4_greedy_selects_first_priority_max {quests : List Quest}
    {qp : List (String × ℚ)} {cq : List String} {rt w : ℚ}
    {settings : UserSettings} {o : QueueOption}
    (h : findBestQueueOption quests qp cq rt w settings = some o) :
    ∃ (i : ℕ) (hi : i < (availableQueues settings).length),
      evaluateQueueOption ((availableQueues settings).get ⟨i, hi⟩)
        quests qp cq rt w = some o ∧
      (∀ (j : ℕ) (hj : j < (availableQueues settings).length)
        (o2 : QueueOption),
        evaluateQueueOption ((availableQueues settings).get ⟨j, hj⟩)
          quests qp cq rt w = some o2 → o2.priority ≤ o.priority) ∧
      (∀ (j : ℕ) (hj : j < (availableQueues settings).length), j < i →
        ∀ o2 : QueueOption,
        evaluateQueueOption ((availableQueues settings).get ⟨j, hj⟩)
          quests qp cq rt w = some o2 → o2.priority < o.priority) := by
  rw [findBestQueueOption_eq_fold] at h
  rcases foldPick_first_max (availableQueues settings) none o h with
    ⟨hacc, _⟩ | ⟨i, hi, he, hb, hs, _⟩
  · exact absurd hacc (by simp)
  · exact ⟨i, hi, he, hb, hs⟩

/-- Witness for the amended C4 at the tie scenario. -/
theorem C4_greedy_selects_first_priority_max_witness :
    ∃ (i : ℕ) (hi : i < (availableQueues tieSettings).length),
      evaluateQueueOption ((availableQueues tieSettings).get ⟨i, hi⟩)
        [] [] [] 60 (1/2) = some tieOption ∧
      (∀ (j : ℕ) (hj : j < (availableQueues tieSettings).length)
        (o2 : QueueOption),
        evaluateQueueOption ((availableQueues tieSettings).get ⟨j, hj⟩)
          [] [] [] 60 (1/2) = some o2 →
          o2.priority ≤ tieOption.priority) ∧
      (∀ (j : ℕ) (hj : j < (availableQueues tieSettings).length), j < i →
        ∀ o2 : QueueOption,
        evaluateQueueOption ((availableQueues tieSettings).get ⟨j, hj⟩)
          [] [] [] 60 (1/2) = some o2 →
          o2.priority < tieOption.priority) :=
  C4_greedy_selects_first_priority_max
    (by set_option maxRecDepth 2000 in with_unfolding_all decide)

/-! ## Plan mutator and recalculation -/

/-- Placeholder plan step for total indexed lookups. -/
def defaultPlanStep : PlanStep :=
  { id := ""
    queue := .standard_bo1
    targetGames := 0
    estimatedMinutes := 0
    expectedRewards := ⟨0, 0, 0⟩
    questProgress := []
    completed := false }

/-- A concrete one-step plan used by the mutator counterexamples. -/
def mutatorPlan : OptimizedPlan :=
  { id := "00000000-0000-0000-0000-0000000000bb"
    steps := [{ id := "00000000-0000-0000-0000-0000000000aa"
                queue := .standard_bo1
                targetGames := 3
                estimatedMinutes := 24
                expectedRewards := ⟨143, 0, 0⟩
                questProgress := []
                completed := false }]
    totalEstimatedMinutes := 24
    totalExpectedRewards := ⟨143, 0, 0⟩
    questsCompleted := []
    timeBudget := 60
    winRate := 1/2
    createdAt := 0
    updatedAt := 0 }

/-- C6, counterexample: marking a step refreshes the plan's updatedAt
timestamp, so not every field other than the targeted completed flag is
byte-identical to the input plan. -/
theorem C6_markStep_counterexample :
    (updatePlanProgress 1 mutatorPlan "00000000-0000-0000-0000-0000000000aa"
      true).updatedAt ≠ mutatorPlan.updatedAt := by
  decide

/-- C6, amended: marking a step changes only the targeted step's completed
flag and the plan's updatedAt timestamp; every other field of the plan and
of every step is unchanged (and no quest state is touched, since the
mutator reads none). -/
theorem C6_markStep_frame (now : ℚ) (plan : OptimizedPlan) (stepId : String)
    (completed : Bool) :
    (updatePlanProgress now plan stepId completed).id = plan.id ∧
    (updatePlanProgress now plan stepId completed).totalEstimatedMinutes =
      plan.totalEstimatedMinutes ∧
    (updatePlanProgress now plan stepId completed).totalExpectedRewards =
      plan.totalExpectedRewards ∧
    (updatePlanProgress now plan stepId completed).questsCompleted =
      plan.questsCompleted ∧
    (updatePlanProgress now plan stepId completed).timeBudget = plan.timeBudget ∧
    (updatePlanProgress now plan stepId completed).winRate = plan.winRate ∧
    (updatePlanProgress now plan stepId completed).createdAt = plan.createdAt ∧
    (updatePlanProgress now plan stepId completed).updatedAt = now ∧
    (updatePlanProgress now plan stepId completed).steps.length =
      plan.steps.length ∧
    ∀ i : ℕ, i < plan.steps.length →
      (((updatePlanProgress now plan stepId completed).steps.getD i
          defaultPlanStep).id = (plan.steps.getD i defaultPlanStep).id ∧
       ((updatePlanProgress now plan stepId completed).steps.getD i
          defaultPlanStep).queue = (plan.steps.getD i defaultPlanStep).queue ∧
       ((updatePlanProgress now plan stepId completed).steps.getD i
          defaultPlanStep).targetGames =
         (plan.steps.getD i defaultPlanStep).targetGames ∧
       ((updatePlanProgress now plan stepId completed).steps.getD i
          defaultPlanStep).estimatedMinutes =
         (plan.steps.getD i defaultPlanStep).estimatedMinutes ∧
       ((updatePlanProgress now plan stepId completed).steps.getD i
          defaultPlanStep).expectedRewards =
         (plan.steps.getD i defaultPlanStep).expectedRewards ∧
       ((updatePlanProgress now plan stepId completed).steps.getD i
          defaultPlanStep).questProgress =
         (plan.steps.getD i defaultPlanStep).questProgress) ∧
      ((plan.steps.getD i defaultPlanStep).id ≠ stepId →
        ((updatePlanProgress now plan stepId completed).steps.getD i
          defaultPlanStep).completed =
        (plan.steps.getD i defaultPlanStep).completed) ∧
      ((plan.steps.getD i defaultPlanStep).id = stepId →
        ((updatePlanProgress now plan stepId completed).steps.getD i
          defaultPlanStep).completed = completed) := by
  refine ⟨rfl, rfl, rfl, rfl, rfl, rfl, rfl, rfl, by
    simp [updatePlanProgress], ?_⟩
  intro i hi
  have hm : (updatePlanProgress now plan stepId completed).steps.getD i
      defaultPlanStep =
      (fun step => if step.id = stepId then { step with completed := completed }
        else step) (plan.steps.getD i defaultPlanStep) := by
    show (plan.steps.map _).getD i defaultPlanStep = _
    rw [List.getD_eq_getElem _ _ (by simpa using hi),
      List.getD_eq_getElem _ _ hi, List.getElem_map]
  rw [hm]
  dsimp only
  by_cases hid : (plan.steps.getD i defaultPlanStep).id = stepId
  · rw [if_pos hid]
    exact ⟨⟨rfl, rfl, rfl, rfl, rfl, rfl⟩, fun hne => absurd hid hne,
      fun _ => rfl⟩
  · rw [if_neg hid]
    exact ⟨⟨rfl, rfl, rfl, rfl, rfl, rfl⟩, fun _ => rfl,
      fun heq => absurd heq hid⟩

/-- Witness for the amended C6 at the concrete plan. -/
theorem C6_markStep_frame_witness :
    (updatePlanProgress 1 mutatorPlan "00000000-0000-0000-0000-0000000000aa"
      true).id = mutatorPlan.id ∧
    (updatePlanProgress 1 mutatorPlan "00000000-0000-0000-0000-0000000000aa"
      true).totalEstimatedMinutes = mutatorPlan.totalEstimatedMinutes ∧
    (updatePlanProgress 1 mutatorPlan "00000000-0000-0000-0000-0000000000aa"
      true).totalExpectedRewards = mutatorPlan.totalExpectedRewards ∧
    (updatePlanProgress 1 mutatorPlan "00000000-0000-0000-0000-0000000000aa"
      true).questsCompleted = mutatorPlan.questsCompleted ∧
    (updatePlanProgress 1 mutatorPlan "00000000-0000-0000-0000-0000000000aa"
      true).timeBudget = mutatorPlan.timeBudget ∧
    (updatePlanProgress 1 mutatorPlan "00000000-0000-0000-0000-0000000000aa"
      true).winRate = mutatorPlan.winRate ∧
    (updatePlanProgress 1 mutatorPlan "00000000-0000-0000-0000-0000000000aa"
      true).createdAt = mutatorPlan.createdAt ∧
    (updatePlanProgress 1 mutatorPlan "00000000-0000-0000-0000-0000000000aa"
      true).updatedAt = 1 ∧
    (updatePlanProgress 1 mutatorPlan "00000000-0000-0000-0000-0000000000aa"
      true).steps.length = mutatorPlan.steps.length ∧
    ∀ i : ℕ, i < mutatorPlan.steps.length →
      (((updatePlanProgress 1 mutatorPlan
          "00000000-0000-0000-0000-0000000000aa" true).steps.getD i
          defaultPlanStep).id = (mutatorPlan.steps.getD i defaultPlanStep).id ∧
       ((updatePlanProgress 1 mutatorPlan
          "00000000-0000-0000-0000-0000000000aa" true).steps.getD i
          defaultPlanStep).queue =
         (mutatorPlan.steps.getD i defaultPlanStep).queue ∧
       ((updatePlanProgress 1 mutatorPlan
          "00000000-0000-0000-0000-0000000000aa" true).steps.getD i
          defaultPlanStep).targetGames =
         (mutatorPlan.steps.getD i defaultPlanStep).targetGames ∧
       ((updatePlanProgress 1 mutatorPlan
          "00000000-0000-0000-0000-0000000000aa" true).steps.getD i
          defaultPlanStep).estimatedMinutes =
         (mutatorPlan.steps.getD i defaultPlanStep).estimatedMinutes ∧
       ((updatePlanProgress 1 mutatorPlan
          "00000000-0000-0000-0000-0000000000aa" true).steps.getD i
          defaultPlanStep).expectedRewards =
         (mutatorPlan.steps.getD i defaultPlanStep).expectedRewards ∧
       ((updatePlanProgress 1 mutatorPlan
          "00000000-0000-0000-0000-0000000000aa" true).steps.getD i
          defaultPlanStep).questProgress =
         (mutatorPlan.steps.getD i defaultPlanStep).questProgress) ∧
      ((mutatorPlan.steps.getD i defaultPlanStep).id ≠
          "00000000-0000-0000-0000-0000000000aa" →
        ((updatePlanProgress 1 mutatorPlan
          "00000000-0000-0000-0000-0000000000aa" true).steps.getD i
          defaultPlanStep).completed =
        (mutatorPlan.steps.getD i defaultPlanStep).completed) ∧
      ((mutatorPlan.steps.getD i defaultPlanStep).id =
          "00000000-0000-0000-0000-0000000000aa" →
        ((updatePlanProgress 1 mutatorPlan
          "00000000-0000-0000-0000-0000000000aa" true).steps.getD i
          defaultPlanStep).completed = true) :=
  C6_markStep_frame 1 mutatorPlan "00000000-0000-0000-0000-0000000000aa" true

/-- A plan whose only step is completed but which used only a fifth of its
time budget. -/
def recalcPartialPlan : OptimizedPlan :=
  { id := "00000000-0000-0000-0000-0000000000cc"
    steps := [{ id := "00000000-0000-0000-0000-0000000000aa"
                queue := .standard_bo1
                targetGames := 3
                estimatedMinutes := 20
                expectedRewards := ⟨100, 0, 0⟩
                questProgress := []
                completed := true }]
    totalEstimatedMinutes := 20
    totalExpectedRewards := ⟨100, 0, 0⟩
    questsCompleted := []
    timeBudget := 100
    winRate := 1/2
    createdAt := 0
    updatedAt := 0 }

/-- C7, counterexample: a plan can have all steps completed while most of
its budget is unused; recalculation then re-optimizes (and here fails with
the no-active-quests error) instead of returning the current plan with the
all-time-used warning. -/
theorem C7_recalculate_counterexample :
    (∀ s ∈ recalcPartialPlan.steps, s.completed = true) ∧
    (recalculatePlan witnessGen 1 recalcPartialPlan [] none).success = false ∧
    (recalculatePlan witnessGen 1 recalcPartialPlan [] none).warnings ≠
      some ["All allocated time has been used"] := by
  with_unfolding_all decide

/-- C7, amended: when all steps are completed and the completed steps'
minutes reach the time budget, recalculation returns success with the same
plan (updatedAt refreshed), the all-time-used warning, and no new steps. -/
theorem C7_recalculate_all_time_used (gen : Nat → String) (now : ℚ)
    (plan : OptimizedPlan) (updatedQuests : List Quest)
    (settings : Option UserSettings)
    (hall : ∀ s ∈ plan.steps, s.completed = true)
    (hbudget : plan.timeBudget ≤ (plan.steps.map PlanStep.estimatedMinutes).sum) :
    recalculatePlan gen now plan updatedQuests settings =
      { success := true
        plan := some { plan with updatedAt := now }
        error := none
        warnings := some ["All allocated time has been used"] } := by
  unfold recalculatePlan
  have hfilter : plan.steps.filter (fun s => s.completed) = plan.steps :=
    List.filter_eq_self.mpr hall
  rw [hfilter, foldl_minutes, zero_add,
    if_pos (by linarith : plan.timeBudget -
      (plan.steps.map PlanStep.estimatedMinutes).sum ≤ 0)]

/-- A plan whose only step is completed and exhausts the budget. -/
def recalcFullPlan : OptimizedPlan :=
  { id := "00000000-0000-0000-0000-0000000000dd"
    steps := [{ id := "00000000-0000-0000-0000-0000000000aa"
                queue := .standard_bo1
                targetGames := 8
                estimatedMinutes := 60
                expectedRewards := ⟨300, 0, 0⟩
                questProgress := []
                completed := true }]
    totalEstimatedMinutes := 60
    totalExpectedRewards := ⟨300, 0, 0⟩
    questsCompleted := []
    timeBudget := 60
    winRate := 1/2
    createdAt := 0
    updatedAt := 0 }

/-- Witness for the amended C7 at the budget-exhausting plan. -/
theorem C7_recalculate_all_time_used_witness :
    recalculatePlan witnessGen 1 recalcFullPlan [] none =
      { success := true
        plan := some { recalcFullPlan with updatedAt := 1 }
        error := none
        warnings := some ["All allocated time has been used"] } :=
  C7_recalculate_all_time_used witnessGen 1 recalcFullPlan [] none
    (by decide) (by with_unfolding_all decide)

/-- C9: With validated inputs (well-formed quests, budget in [15, 180], win
rate in [3/10, 4/5], valid settings when present) and every quest already at
zero remaining -- the empty list included -- `optimizePlan` fails with the
no-active-quests error and returns no plan. -/
theorem C9_no_active_quests (gen : Nat → String) (now : ℚ)
    (quests : List Quest) (tB w : ℚ) (settings : Option UserSettings)
    (hq : ∀ q ∈ quests, questSchemaValid q = true)
    (h15 : 15 ≤ tB) (h180 : tB ≤ 180)
    (hw1 : 3/10 ≤ w) (hw2 : w ≤ 4/5)
    (hset : ∀ s, settings = some s → settingsSchemaValid s = true)
    (hrem : ∀ q ∈ quests, q.remaining = 0) :
    optimizePlan gen now quests tB w settings =
      { success := false
        plan := none
        error := some "No active quests to optimize"
        warnings := some ["All quests are already completed"] } := by
  have hvalid : validateOptimizationInput quests tB w settings = true := by
    unfold validateOptimizationInput
    simp only [Bool.and_eq_true, decide_eq_true_eq, List.all_eq_true]
    refine ⟨⟨⟨⟨⟨hq, h15⟩, h180⟩, hw1⟩, hw2⟩, ?_⟩
    cases settings with
    | none => rfl
    | some s => exact hset s rfl
  unfold optimizePlan
  rw [if_neg (by simp [hvalid])]
  dsimp only
  have hfilter : quests.filter (fun quest => 0 < quest.remaining) = [] := by
    rw [List.filter_eq_nil]
    intro q hq2
    simp [hrem q hq2]
  rw [hfilter]
  rfl

/-- Witness for C9 at the empty quest list. -/
theorem C9_no_active_quests_witness :
    optimizePlan witnessGen 0 [] 60 (1/2) none =
      { success := false
        plan := none
        error := some "No active quests to optimize"
        warnings := some ["All quests are already completed"] } :=
  C9_no_active_quests witnessGen 0 [] 60 (1/2) none
    (by intro q hq; exact absurd hq (List.not_mem_nil q))
    (by norm_num) (by norm_num) (by norm_num) (by norm_num)
    (by intro s hs; exact absurd hs (by simp))
    (by intro q hq; exact absurd hq (List.not_mem_nil q))

/-! ## Determinism of the optimizer

The engine is a pure function of its arguments together with the ambient
UUID generator and clock, which the embedding makes explicit. Everything
except the freshly generated ids and the timestamps is independent of those
two inputs. -/

/-- The id-free content of a plan step. -/
def stepSignature (s : PlanStep) :
    QueueType × ℚ × ℚ × Rewards × List StepProgress × Bool :=
  (s.queue, s.targetGames, s.estimatedMinutes, s.expectedRewards,
    s.questProgress, s.completed)

/-- The id- and timestamp-free content of a plan. -/
def planSignature (p : OptimizedPlan) :
    List (QueueType × ℚ × ℚ × Rewards × List StepProgress × Bool) ×
      ℚ × Rewards × List String × ℚ × ℚ :=
  (p.steps.map stepSignature, p.totalEstimatedMinutes, p.totalExpectedRewards,
    p.questsCompleted, p.timeBudget, p.winRate)

/-- The id- and timestamp-free content of an optimization result. -/
def resultSignature (r : OptimizationResult) :
    Bool ×
      Option (List (QueueType × ℚ × ℚ × Rewards × List StepProgress × Bool) ×
        ℚ × Rewards × List String × ℚ × ℚ) ×
      Option String × Option (List String) :=
  (r.success, r.plan.map planSignature, r.error, r.warnings)

/-- A plan step's signature does not depend on the id it was given. -/
lemma stepSignature_createPlanStep (id1 id2 : String) (o : QueueOption)
    (qp : List (String × ℚ)) :
    stepSignature (createPlanStep id1 o qp) =
    stepSignature (createPlanStep id2 o qp) := rfl

/-- The greedy loop's emitted step signatures and final tracked state do
not depend on the id generator or counter. -/
lemma greedyLoop_gen_irrelevant (quests : List Quest) (w : ℚ)
    (settings : UserSettings) :
    ∀ (fuel : Nat) (rt : ℚ) (qp : List (String × ℚ)) (cq : List String)
      (gen1 gen2 : Nat → String) (ctr1 ctr2 : Nat),
      (greedyLoop gen1 quests w settings fuel rt qp cq ctr1).1.map
          stepSignature =
        (greedyLoop gen2 quests w settings fuel rt qp cq ctr2).1.map
          stepSignature ∧
      (greedyLoop gen1 quests w settings fuel rt qp cq ctr1).2.1 =
        (greedyLoop gen2 quests w settings fuel rt qp cq ctr2).2.1 ∧
      (greedyLoop gen1 quests w settings fuel rt qp cq ctr1).2.2.1 =
        (greedyLoop gen2 quests w settings fuel rt qp cq ctr2).2.2.1 := by
  intro fuel
  induction fuel with
  | zero => intro rt qp cq gen1 gen2 ctr1 ctr2; exact ⟨rfl, rfl, rfl⟩
  | succ fuel ih =>
    intro rt qp cq gen1 gen2 ctr1 ctr2
    simp only [greedyLoop]
    split_ifs with hcond
    · cases hbest : findBestQueueOption quests qp cq rt w settings with
      | none => exact ⟨rfl, rfl, rfl⟩
      | some bestOption =>
        dsimp only
        by_cases hfit : rt < bestOption.estimatedMinutes
        · rw [if_pos hfit, if_pos hfit]
          exact ⟨rfl, rfl, rfl⟩
        · rw [if_neg hfit, if_neg hfit]
          dsimp only
          obtain ⟨h1, h2, h3⟩ := ih (rt - bestOption.estimatedMinutes)
            (applyOptionProgress bestOption.questProgress qp cq).1
            (applyOptionProgress bestOption.questProgress qp cq).2
            gen1 gen2 (ctr1 + 1) (ctr2 + 1)
          refine ⟨?_, h2, h3⟩
          rw [List.map_cons, List.map_cons, h1,
            stepSignature_createPlanStep (gen1 ctr1) (gen2 ctr2)]
    · exact ⟨rfl, rfl, rfl⟩

/-- Projection of a composed map over step signatures. -/
lemma map_stepSignature_proj {l1 l2 : List PlanStep}
    (h : l1.map stepSignature = l2.map stepSignature)
    {α : Type} (f : QueueType × ℚ × ℚ × Rewards × List StepProgress × Bool → α) :
    l1.map (fun s => f (stepSignature s)) = l2.map (fun s => f (stepSignature s)) := by
  have := congrArg (List.map f) h
  rwa [List.map_map, List.map_map] at this

/-- The generated plans of two runs with different id generators and
timestamps agree on everything except ids and timestamps. -/
lemma generateOptimizedPlan_gen_irrelevant (gen1 gen2 : Nat → String)
    (now1 now2 : ℚ) (quests : List Quest) (tB w : ℚ) (s : UserSettings) :
    planSignature (generateOptimizedPlan gen1 now1 quests tB w s) =
    planSignature (generateOptimizedPlan gen2 now2 quests tB w s) := by
  obtain ⟨h1, h2, h3⟩ := greedyLoop_gen_irrelevant quests w s optimizerFuel
    tB (quests.foldl (fun m q => mapSet m q.id q.remaining) []) [] gen1 gen2 0 0
  have hmin : (generateOptimizedPlan gen1 now1 quests tB w s).totalEstimatedMinutes =
      (generateOptimizedPlan gen2 now2 quests tB w s).totalEstimatedMinutes := by
    rw [generateOptimizedPlan_totalMinutes, generateOptimizedPlan_totalMinutes,
      generateOptimizedPlan_steps, generateOptimizedPlan_steps]
    have := map_stepSignature_proj h1 (fun t => t.2.2.1)
    simpa [stepSignature] using congrArg List.sum this
  have hgold : (generateOptimizedPlan gen1 now1 quests tB w s).totalExpectedRewards =
      (generateOptimizedPlan gen2 now2 quests tB w s).totalExpectedRewards := by
    obtain ⟨hg1, he1, hp1⟩ := generateOptimizedPlan_totalRewards gen1 now1 quests tB w s
    obtain ⟨hg2, he2, hp2⟩ := generateOptimizedPlan_totalRewards gen2 now2 quests tB w s
    have hgg := map_stepSignature_proj h1 (fun t => t.2.2.2.1.gold)
    have hge := map_stepSignature_proj h1 (fun t => t.2.2.2.1.gems)
    have hgp := map_stepSignature_proj h1 (fun t => t.2.2.2.1.packs)
    have hgolds := congrArg List.sum hgg
    have hgemss := congrArg List.sum hge
    have hpackss := congrArg List.sum hgp
    simp only [stepSignature] at hgolds hgemss hpackss
    have e1 : (generateOptimizedPlan gen1 now1 quests tB w s).totalExpectedRewards.gold =
        (generateOptimizedPlan gen2 now2 quests tB w s).totalExpectedRewards.gold := by
      rw [hg1, hg2, generateOptimizedPlan_steps, generateOptimizedPlan_steps]
      exact hgolds
    have e2 : (generateOptimizedPlan gen1 now1 quests tB w s).totalExpectedRewards.gems =
        (generateOptimizedPlan gen2 now2 quests tB w s).totalExpectedRewards.gems := by
      rw [he1, he2, generateOptimizedPlan_steps, generateOptimizedPlan_steps]
      exact hgemss
    have e3 : (generateOptimizedPlan gen1 now1 quests tB w s).totalExpectedRewards.packs =
        (generateOptimizedPlan gen2 now2 quests tB w s).totalExpectedRewards.packs := by
      rw [hp1, hp2, generateOptimizedPlan_steps, generateOptimizedPlan_steps]
      exact hpackss
    cases hA : (generateOptimizedPlan gen1 now1 quests tB w s).totalExpectedRewards with
    | mk gA eA pA =>
      cases hB : (generateOptimizedPlan gen2 now2 quests tB w s).totalExpectedRewards with
      | mk gB eB pB =>
        rw [hA, hB] at e1 e2 e3
        simp only at e1 e2 e3
        rw [e1, e2, e3]
  unfold planSignature
  rw [generateOptimizedPlan_steps, generateOptimizedPlan_steps, h1, hmin, hgold]
  have hcq : (generateOptimizedPlan gen1 now1 quests tB w s).questsCompleted =
      (generateOptimizedPlan gen2 now2 quests tB w s).questsCompleted := h3
  rw [hcq]
  rfl

/-- Advisory warnings depend on a plan only through its budget and
aggregate minutes. -/
lemma generateWarnings_congr (a f : List Quest) (p1 p2 : OptimizedPlan)
    (hb : p1.timeBudget = p2.timeBudget)
    (hm : p1.totalEstimatedMinutes = p2.totalEstimatedMinutes) :
    generateWarnings a f p1 = generateWarnings a f p2 := by
  unfold generateWarnings
  rw [hb, hm]

/-- C8, counterexample: two calls with identical quests, time budget, win
rate and settings but distinct ambient id sources (as any two real
invocations have) return different results -- the generated plan ids
differ. -/
theorem C8_determinism_counterexample :
    optimizePlan (fun _ => "a") 0 [witnessQuest] 60 (3/5) none ≠
    optimizePlan (fun _ => "b") 0 [witnessQuest] 60 (3/5) none := by
  intro h
  have ha : (optimizePlan (fun _ => "a") 0 [witnessQuest] 60 (3/5)
      none).plan.map OptimizedPlan.id = some "a" := by
    with_unfolding_all decide
  have hb : (optimizePlan (fun _ => "b") 0 [witnessQuest] 60 (3/5)
      none).plan.map OptimizedPlan.id = some "b" := by
    with_unfolding_all decide
  rw [h, hb] at ha
  exact absurd ha (by decide)

/-- C8, amended: the optimizer is a pure function of its arguments together
with the ambient id generator and clock; calls with identical quests, time
budget, win rate and settings agree on everything except the generated ids
and timestamps -- success flag, error, warnings, step signatures, totals,
completed quests, budget and win rate all coincide. -/
theorem C8_optimizePlan_pure_modulo_ids (gen1 gen2 : Nat → String)
    (now1 now2 : ℚ) (quests : List Quest) (tB w : ℚ)
    (settings : Option UserSettings) :
    resultSignature (optimizePlan gen1 now1 quests tB w settings) =
    resultSignature (optimizePlan gen2 now2 quests tB w settings) := by
  unfold optimizePlan
  by_cases hv : validateOptimizationInput quests tB w settings = true
  · have hnotv : ¬((!validateOptimizationInput quests tB w settings) = true) := by
      simp [hv]
    rw [if_neg hnotv, if_neg hnotv]
    dsimp only
    by_cases ha : (quests.filter (fun quest => 0 < quest.remaining)).length = 0
    · rw [if_pos ha, if_pos ha]
    · rw [if_neg ha, if_neg ha]
      by_cases hf : ((quests.filter (fun quest => 0 < quest.remaining)).filter
          (fun quest => canQuestBeCompletedInTime quest tB w
            (settings.getD createDefaultSettings).preferredQueues)).length = 0
      · rw [if_pos hf, if_pos hf]
      · rw [if_neg hf, if_neg hf]
        have hplan := generateOptimizedPlan_gen_irrelevant gen1 gen2 now1 now2
          ((quests.filter (fun quest => 0 < quest.remaining)).filter
            (fun quest => canQuestBeCompletedInTime quest tB w
              (settings.getD createDefaultSettings).preferredQueues))
          tB w (settings.getD createDefaultSettings)
        have hmin : (generateOptimizedPlan gen1 now1
            ((quests.filter (fun quest => 0 < quest.remaining)).filter
              (fun quest => canQuestBeCompletedInTime quest tB w
                (settings.getD createDefaultSettings).preferredQueues))
            tB w (settings.getD createDefaultSettings)).totalEstimatedMinutes =
            (generateOptimizedPlan gen2 now2
            ((quests.filter (fun quest => 0 < quest.remaining)).filter
              (fun quest => canQuestBeCompletedInTime quest tB w
                (settings.getD createDefaultSettings).preferredQueues))
            tB w (settings.getD createDefaultSettings)).totalEstimatedMinutes :=
          congrArg (fun t => t.2.1) hplan
        have hwarn := generateWarnings_congr
          (quests.filter (fun quest => 0 < quest.remaining))
          ((quests.filter (fun quest => 0 < quest.remaining)).filter
            (fun quest => canQuestBeCompletedInTime quest tB w
              (settings.getD createDefaultSettings).preferredQueues))
          (generateOptimizedPlan gen1 now1
            ((quests.filter (fun quest => 0 < quest.remaining)).filter
              (fun quest => canQuestBeCompletedInTime quest tB w
                (settings.getD createDefaultSettings).preferredQueues))
            tB w (settings.getD createDefaultSettings))
          (generateOptimizedPlan gen2 now2
            ((quests.filter (fun quest => 0 < quest.remaining)).filter
              (fun quest => canQuestBeCompletedInTime quest tB w
                (settings.getD createDefaultSettings).preferredQueues))
            tB w (settings.getD createDefaultSettings))
          rfl hmin
        simp only [resultSignature, Option.map_some']
        rw [hplan, hwarn]
  · have hvv : (!validateOptimizationInput quests tB w settings) = true := by
      simpa using hv
    rw [if_pos hvv, if_pos hvv]

end QuestFlow
